import Mathlib

/-!
# Verification of the cozempic team-aware pruning and recovery-injection engine

Shallow embedding of `src/cozempic/team.py` and `src/cozempic/guard.py`.
JSON values carried by log entries are modelled by `JVal`; Python semantics
(truthiness, `dict.get`, hashability of dict keys, `==` between numbers and
booleans) are modelled explicitly.  Operations that can raise a Python
exception (`AttributeError` on `.get` of a non-dict, `TypeError` on
unhashable dict keys, on slicing a non-sliceable value, or on `str.join`
of non-strings) return `Except String`.
-/

/-- A JSON value, as produced by `json.loads` of one session line.
Numbers are modelled as integers. -/
inductive JVal where
  | str : String → JVal
  | num : Int → JVal
  | bool : Bool → JVal
  | null : JVal
  | arr : List JVal → JVal
  | obj : List (String × JVal) → JVal
deriving Repr

namespace JVal

/-- Python truthiness of a JSON value: `""`, `0`, `False`, `None`, `[]`,
`{}` are falsy, everything else truthy. -/
def truthy : JVal → Bool
  | .str s => !s.isEmpty
  | .num n => n != 0
  | .bool b => b
  | .null => false
  | .arr l => !l.isEmpty
  | .obj l => !l.isEmpty

/-- Whether a JSON value is hashable in Python (usable as a dict key):
strings, numbers, booleans and `None` are; lists and dicts are not. -/
def hashable : JVal → Bool
  | .arr _ => false
  | .obj _ => false
  | _ => true

/-- Python `==` restricted to the values that occur as dict keys here.
Numbers and booleans compare across types (`1 == True`); containers
are never pyEq to anything (they are rejected as keys before comparison). -/
def pyEq : JVal → JVal → Bool
  | .str a, .str b => a == b
  | .num a, .num b => a == b
  | .bool a, .bool b => a == b
  | .num a, .bool b => a == (if b then (1 : Int) else 0)
  | .bool a, .num b => (if a then (1 : Int) else 0) == b
  | .null, .null => true
  | _, _ => false

theorem pyEq_symm : ∀ a b : JVal, pyEq a b = pyEq b a := by
  intro a b
  cases a <;> cases b <;>
    (try cases ‹Bool›) <;> (try cases ‹Bool›) <;>
    simp [pyEq, beq_iff_eq, eq_comm]

theorem pyEq_trans : ∀ {a b c : JVal}, pyEq a b = true → pyEq b c = true →
    pyEq a c = true := by
  intro a b c hab hbc
  cases a <;> cases b <;> cases c <;>
    (try cases ‹Bool›) <;> (try cases ‹Bool›) <;> (try cases ‹Bool›) <;>
    simp_all [pyEq, beq_iff_eq]

/-- Python `d.get(key, default)` where the receiver may not be a dict:
raises `AttributeError` unless the receiver is a dict. -/
def pyGet (v : JVal) (key : String) (dflt : JVal) : Except String JVal :=
  match v with
  | .obj kvs => .ok (((kvs.lookup key).getD dflt))
  | _ => .error "AttributeError: get on non-dict"

/-- Python iteration over a JSON value: lists yield elements, strings yield
one-character strings, dicts yield their keys; other values raise `TypeError`. -/
def pyIter : JVal → Except String (List JVal)
  | .arr l => .ok l
  | .str s => .ok (s.toList.map fun c => .str (String.singleton c))
  | .obj kvs => .ok (kvs.map fun kv => .str kv.1)
  | _ => .error "TypeError: not iterable"

/-- Python `v[:300]`: defined for strings (by code point) and lists,
`TypeError` otherwise. -/
def pySliceTo300 : JVal → Except String JVal
  | .str s => .ok (.str (String.mk (s.toList.take 300)))
  | .arr l => .ok (.arr (l.take 300))
  | _ => .error "TypeError: value does not support slicing"

end JVal

open JVal (truthy hashable pyEq pyIter pySliceTo300)

/-- Python `sep.join(l)`: every element must be a string, else `TypeError`. -/
def pyJoin (sep : String) : List JVal → Except String String
  | [] => .ok ""
  | [.str s] => .ok s
  | .str s :: xs => do
      let rest ← pyJoin sep xs
      .ok (s ++ sep ++ rest)
  | _ => .error "TypeError: join of non-string"

/-! ## Python `str()` / `repr()` rendering (for f-strings) -/

def hexDigit (n : Nat) : Char :=
  (("0123456789abcdef".toList).getD n '0')

def hex2 (n : Nat) : String :=
  String.mk [hexDigit (n / 16 % 16), hexDigit (n % 16)]

def hex4 (n : Nat) : String :=
  String.mk [hexDigit (n / 4096 % 16), hexDigit (n / 256 % 16),
             hexDigit (n / 16 % 16), hexDigit (n % 16)]

/-- Quote character Python `repr` picks for a string: a single quote,
unless the string contains one and no double quote. -/
def reprQuote (s : String) : Char :=
  if s.toList.contains '\'' && !(s.toList.contains '"') then '"' else '\''

def pyReprCharIn (q : Char) (c : Char) : String :=
  if c == '\\' then "\\\\"
  else if c == q then "\\" ++ String.singleton q
  else if c == '\n' then "\\n"
  else if c == '\r' then "\\r"
  else if c == '\t' then "\\t"
  else if c.toNat < 0x20 || c.toNat == 0x7f then "\\x" ++ hex2 c.toNat
  else String.singleton c

def pyReprStr (s : String) : String :=
  let q := reprQuote s
  String.singleton q ++ String.join (s.toList.map (pyReprCharIn q)) ++
    String.singleton q

mutual

/-- Python `repr` of a JSON value. -/
def pyRepr : JVal → String
  | JVal.str s => pyReprStr s
  | JVal.num n => toString n
  | JVal.bool b => if b then "True" else "False"
  | JVal.null => "None"
  | JVal.arr l => "[" ++ pyReprList l ++ "]"
  | JVal.obj kvs => "\x7b" ++ pyReprObj kvs ++ "\x7d"

def pyReprList : List JVal → String
  | [] => ""
  | [x] => pyRepr x
  | x :: y :: xs => pyRepr x ++ ", " ++ pyReprList (y :: xs)

def pyReprObj : List (String × JVal) → String
  | [] => ""
  | [(k, v)] => pyReprStr k ++ ": " ++ pyRepr v
  | (k, v) :: y :: xs => pyReprStr k ++ ": " ++ pyRepr v ++ ", " ++ pyReprObj (y :: xs)

end

/-- Python `str()` of a JSON value, as used by f-string interpolation. -/
def pyStr : JVal → String
  | JVal.str s => s
  | v => pyRepr v

/-! ## `json.dumps(..., separators=(",", ":"))` with default `ensure_ascii` -/

def jsonEscChar (c : Char) : String :=
  if c == '"' then "\\\""
  else if c == '\\' then "\\\\"
  else if c == '\n' then "\\n"
  else if c == '\t' then "\\t"
  else if c == '\r' then "\\r"
  else if c == '\x08' then "\\b"
  else if c == '\x0c' then "\\f"
  else if c.toNat < 0x20 then "\\u" ++ hex4 c.toNat
  else if c.toNat ≤ 0x7e then String.singleton c
  else if c.toNat < 0x10000 then "\\u" ++ hex4 c.toNat
  else
    "\\u" ++ hex4 (0xd800 + (c.toNat - 0x10000) / 0x400) ++
    "\\u" ++ hex4 (0xdc00 + (c.toNat - 0x10000) % 0x400)

mutual

/-- `json.dumps(v, separators=(",", ":"))`. -/
def dumps : JVal → String
  | JVal.str s => "\"" ++ String.join (s.toList.map jsonEscChar) ++ "\""
  | JVal.num n => toString n
  | JVal.bool b => if b then "true" else "false"
  | JVal.null => "null"
  | JVal.arr l => "[" ++ dumpsList l ++ "]"
  | JVal.obj kvs => "\x7b" ++ dumpsObj kvs ++ "\x7d"

def dumpsList : List JVal → String
  | [] => ""
  | [x] => dumps x
  | x :: y :: xs => dumps x ++ "," ++ dumpsList (y :: xs)

def dumpsObj : List (String × JVal) → String
  | [] => ""
  | [(k, v)] => dumps (JVal.str k) ++ ":" ++ dumps v
  | (k, v) :: y :: xs =>
      dumps (JVal.str k) ++ ":" ++ dumps v ++ "," ++ dumpsObj (y :: xs)

end

/-! ## The coordination vocabulary and keyword pattern (`team.py` lines 115-126)

`TEAM_KEYWORDS` is the regex
`team.?name|agent.?id|teammate|team.?lead|SendMessage|TeamCreate|TaskCreate|
TaskUpdate|agent.?team|spawn.+teammate|team.+config` with `re.IGNORECASE`,
used through `.search` (match anywhere).  It is embedded structurally:
`.?` is an optional non-newline character, `.+` one or more non-newline
characters, literals match case-insensitively. -/

/-- Case-insensitively strip the (lowercase) literal `l` from the front of
`cs`, returning the rest. -/
def stripCI : List Char → List Char → Option (List Char)
  | [], cs => some cs
  | _, [] => none
  | l :: ls, c :: cs => if l == c.toLower then stripCI ls cs else none

def startsCI (l : List Char) (cs : List Char) : Bool :=
  (stripCI l cs).isSome

/-- Match `.?` followed by the literal `l`: the literal, optionally
preceded by one non-newline character. -/
def optAnyThen (l : List Char) (cs : List Char) : Bool :=
  startsCI l cs ||
    (match cs with
     | c :: cs' => c != '\n' && startsCI l cs'
     | [] => false)

/-- Match `.+` followed by the literal `l`: at least one non-newline
character, then the literal. -/
def gapThen (l : List Char) : List Char → Bool
  | [] => false
  | c :: cs => c != '\n' && (startsCI l cs || gapThen l cs)

/-- Does one of the `TEAM_KEYWORDS` alternatives match at this position? -/
def kwHere (cs : List Char) : Bool :=
  (match stripCI "team".toList cs with
   | some r => optAnyThen "name".toList r || optAnyThen "lead".toList r ||
       gapThen "config".toList r
   | none => false) ||
  (match stripCI "agent".toList cs with
   | some r => optAnyThen "id".toList r || optAnyThen "team".toList r
   | none => false) ||
  startsCI "teammate".toList cs ||
  startsCI "sendmessage".toList cs ||
  startsCI "teamcreate".toList cs ||
  startsCI "taskcreate".toList cs ||
  startsCI "taskupdate".toList cs ||
  (match stripCI "spawn".toList cs with
   | some r => gapThen "teammate".toList r
   | none => false)

def kwSearchAux : List Char → Bool
  | [] => false
  | c :: cs => kwHere (c :: cs) || kwSearchAux cs

/-- `TEAM_KEYWORDS.search(s)` as a boolean. -/
def teamKeywordsSearch (s : String) : Bool :=
  kwSearchAux s.toList

/-- `TEAM_TOOL_NAMES` (`team.py` lines 115-119). -/
def TEAM_TOOL_NAMES : List String :=
  ["TeamCreate", "TeamDelete", "TeamMessage", "SendMessage",
   "TaskCreate", "TaskUpdate", "TaskList", "TaskGet",
   "SpawnTeammate", "TeamStatus"]

/-- Python `v in TEAM_TOOL_NAMES` for a JSON value `v`. -/
def isTeamToolName : JVal → Bool
  | .str s => TEAM_TOOL_NAMES.contains s
  | _ => false

/-! ## Log entries -/

/-- One structured entry of the session log: a JSON object, modelled as an
association list with string keys. -/
abbrev Msg := List (String × JVal)

/-- Python `m.get(key, dflt)` on a message dict (total: the receiver is a
dict by construction). -/
def msgGetD (m : Msg) (key : String) (dflt : JVal) : JVal :=
  (m.lookup key).getD dflt

/-- One element of the loaded session: `(line_idx, msg_dict, byte_size)`. -/
abbrev Entry := Nat × Msg × Nat

/-- `_is_team_message` (`team.py` lines 129-155), for one content block
that is a dict (non-dict blocks are skipped by the loop). -/
def blockIsTeam : JVal → Bool
  | .obj kvs =>
      (pyEq (msgGetD kvs "type" .null) (.str "tool_use") &&
        isTeamToolName (msgGetD kvs "name" .null)) ||
      (pyEq (msgGetD kvs "type" .null) (.str "tool_result") &&
        (match msgGetD kvs "content" (.str "") with
         | .str rc => teamKeywordsSearch rc
         | _ => false)) ||
      (match msgGetD kvs "text" (.str "") with
       | .str t => teamKeywordsSearch t
       | _ => false)
  | _ => false

/-- `_is_team_message(msg_dict)` (`team.py` lines 129-155).  Raises
(`AttributeError`) when `msg_dict["message"]` is present but not a dict. -/
def is_team_message (msg : Msg) : Except String Bool := do
  let inner := msgGetD msg "message" (.obj [])
  let content ← JVal.pyGet inner "content" (.arr [])
  match content with
  | .arr blocks => pure (blocks.any blockIsTeam)
  | .str s => pure (teamKeywordsSearch s)
  | _ => pure false

/-! ## Team state data model (`team.py` lines 21-110)

Field values come from untyped JSON input, so they are modelled as `JVal`
(Python dataclasses do not enforce the annotated `str` types). -/

/-- `TeammateInfo` (`team.py` lines 21-28). -/
structure TeammateInfo where
  agent_id : JVal
  name : JVal
  role : JVal := .str ""
  status : JVal := .str "unknown"
deriving Repr

/-- `TaskInfo` (`team.py` lines 31-39). -/
structure TaskInfo where
  task_id : JVal
  subject : JVal
  status : JVal := .str "pending"
  owner : JVal := .str ""
  description : JVal := .str ""
deriving Repr

/-- `TeamState` (`team.py` lines 42-51). -/
structure TeamState where
  team_name : JVal := .str ""
  teammates : List TeammateInfo := []
  tasks : List TaskInfo := []
  lead_summary : String := ""
  message_count : Nat := 0
  last_coordination_index : Int := -1
deriving Repr

/-- `TeamState.is_empty` (`team.py` lines 53-54):
`not self.team_name and not self.teammates and not self.tasks`. -/
def TeamState.is_empty (s : TeamState) : Bool :=
  !truthy s.team_name && s.teammates.isEmpty && s.tasks.isEmpty

/-- Python `v.upper()`: `AttributeError` unless `v` is a string. -/
def pyUpper : JVal → Except String String
  | .str s => .ok s.toUpper
  | _ => .error "AttributeError: upper on non-string"

/-- `TeamState.to_recovery_text` (`team.py` lines 90-110).  Partial:
`t.status.upper()` raises when a task status is not a string. -/
def TeamState.to_recovery_text (s : TeamState) : Except String String := do
  let head := "Active agent team: " ++
    pyStr (if truthy s.team_name then s.team_name else .str "unnamed")
  let tmParts :=
    if s.teammates.isEmpty then []
    else "\nTeammates:" ::
      s.teammates.map (fun t =>
        "  - " ++ pyStr t.name ++ " (agent_id: " ++ pyStr t.agent_id ++ ")" ++
        (if truthy t.role then " — " ++ pyStr t.role else "") ++
        " [" ++ pyStr t.status ++ "]")
  let taskParts ←
    if s.tasks.isEmpty then pure []
    else do
      let lines ← s.tasks.mapM (fun t => do
        let u ← pyUpper t.status
        pure ("  - [" ++ u ++ "] " ++ pyStr t.subject ++
          (if truthy t.owner then " (owner: " ++ pyStr t.owner ++ ")" else "")))
      pure ("\nShared task list:" :: lines)
  let ctxParts :=
    if s.lead_summary.isEmpty then []
    else ["\nCoordination context: " ++ s.lead_summary]
  pure (String.intercalate "\n" (head :: (tmParts ++ taskParts ++ ctxParts)))

/-! ## Python dict operations keyed by JSON values -/

/-- Python dict assignment `d[k] = v` on an association list: the first
`pyEq`-matching key keeps its original key object and position and gets the
new value; otherwise the pair is appended (insertion order). -/
def upsert {α : Type} (k : JVal) (v : α) : List (JVal × α) → List (JVal × α)
  | [] => [(k, v)]
  | (k', v') :: rest =>
      if pyEq k' k then (k', v) :: rest else (k', v') :: upsert k v rest

/-- Python `d[k] = v`: `TypeError` when `k` is unhashable. -/
def pyDictSet {α : Type} (k : JVal) (v : α) (m : List (JVal × α)) :
    Except String (List (JVal × α)) :=
  if hashable k then .ok (upsert k v m) else .error "TypeError: unhashable type"

/-- Python `k in d`: `TypeError` when `k` is unhashable. -/
def pyDictMem {α : Type} (k : JVal) (m : List (JVal × α)) : Except String Bool :=
  if hashable k then .ok (m.any fun kv => pyEq kv.1 k)
  else .error "TypeError: unhashable type"

/-- In-place mutation `d[k].field = x` of the value at an existing key. -/
def dictModify {α : Type} (k : JVal) (f : α → α) :
    List (JVal × α) → List (JVal × α)
  | [] => []
  | (k', v') :: rest =>
      if pyEq k' k then (k', f v') :: rest else (k', v') :: dictModify k f rest

/-! ## `extract_team_state` (`team.py` lines 158-259) -/

/-- The mutable state of the extraction pass: `state.team_name`,
`seen_teammates`, `seen_tasks`, `state.message_count`,
`state.last_coordination_index`. -/
structure ExtAcc where
  team_name : JVal := .str ""
  seen_teammates : List (JVal × TeammateInfo) := []
  seen_tasks : List (JVal × TaskInfo) := []
  message_count : Nat := 0
  last_coordination_index : Int := -1
deriving Repr

/-- `agent_id = tm.get("agentId", tm.get("agent_id", ""))`
(`team.py` line 197). -/
def descriptorId (tm : JVal) : Except String JVal := do
  let idSnake ← JVal.pyGet tm "agent_id" (.str "")
  JVal.pyGet tm "agentId" idSnake

/-- The body of `for tm in inp.get("teammates", [])`
(`team.py` lines 196-206). -/
def upsertTeammate (m : List (JVal × TeammateInfo)) (tm : JVal) :
    Except String (List (JVal × TeammateInfo)) := do
  let agentId ← descriptorId tm
  let tmName ← JVal.pyGet tm "name" agentId
  let descD ← JVal.pyGet tm "description" (.str "")
  let role ← JVal.pyGet tm "role" descD
  if truthy agentId then
    pyDictSet agentId ⟨agentId, tmName, role, .str "running"⟩ m
  else
    pure m

/-- Processing of one content block inside a team message
(`team.py` lines 184-239). -/
def processBlock (acc : ExtAcc) (block : JVal) : Except String ExtAcc := do
  match block with
  | .obj kvs =>
      if !pyEq (msgGetD kvs "type" .null) (.str "tool_use") then
        pure acc
      else
        let name := msgGetD kvs "name" (.str "")
        let inp := msgGetD kvs "input" (.obj [])
        if pyEq name (.str "TeamCreate") then
          let newName ← JVal.pyGet inp "name" acc.team_name
          let acc := { acc with team_name := newName }
          let tmsV ← JVal.pyGet inp "teammates" (.arr [])
          let tms ← pyIter tmsV
          let m ← tms.foldlM upsertTeammate acc.seen_teammates
          pure { acc with seen_teammates := m }
        else if pyEq name (.str "TaskCreate") then
          let idD ← JVal.pyGet inp "id" (.str (toString acc.seen_tasks.length))
          let taskId ← JVal.pyGet inp "taskId" idD
          let titleD ← JVal.pyGet inp "title" (.str "")
          let subject ← JVal.pyGet inp "subject" titleD
          let owner ← JVal.pyGet inp "owner" (.str "")
          let descr ← JVal.pyGet inp "description" (.str "")
          let m ← pyDictSet taskId ⟨taskId, subject, .str "pending", owner, descr⟩
            acc.seen_tasks
          pure { acc with seen_tasks := m }
        else if pyEq name (.str "TaskUpdate") then
          let idD ← JVal.pyGet inp "id" (.str "")
          let taskId ← JVal.pyGet inp "taskId" idD
          let mem ← pyDictMem taskId acc.seen_tasks
          if mem then
            let stV ← JVal.pyGet inp "status" .null
            let acc :=
              if truthy stV then
                let m := dictModify taskId (fun t => { t with status := stV })
                  acc.seen_tasks
                { acc with seen_tasks := m }
              else acc
            let owV ← JVal.pyGet inp "owner" .null
            if truthy owV then
              let m := dictModify taskId (fun t => { t with owner := owV })
                acc.seen_tasks
              pure { acc with seen_tasks := m }
            else
              pure acc
          else
            let subjD ← JVal.pyGet inp "subject" (.str "")
            let stD ← JVal.pyGet inp "status" (.str "unknown")
            let owD ← JVal.pyGet inp "owner" (.str "")
            let m ← pyDictSet taskId ⟨taskId, subjD, stD, owD, .str ""⟩
              acc.seen_tasks
            pure { acc with seen_tasks := m }
        else if pyEq name (.str "SendMessage") || pyEq name (.str "TeamMessage") then
          let agD ← JVal.pyGet inp "agentId" (.str "")
          let target ← JVal.pyGet inp "to" agD
          if truthy target then
            let mem ← pyDictMem target acc.seen_teammates
            if mem then
              let m := dictModify target
                (fun t => { t with status := .str "running" })
                acc.seen_teammates
              pure { acc with seen_teammates := m }
            else pure acc
          else pure acc
        else
          pure acc
  | _ => pure acc

/-- Processing of one entry in the main loop of `extract_team_state`
(`team.py` lines 172-239). -/
def processEntry (acc : ExtAcc) (e : Entry) : Except String ExtAcc := do
  let (lineIdx, msg, _) := e
  let b ← is_team_message msg
  if !b then pure acc
  else
    let acc := { acc with
      message_count := acc.message_count + 1,
      last_coordination_index := (lineIdx : Int) }
    let inner := msgGetD msg "message" (.obj [])
    let content ← JVal.pyGet inner "content" (.arr [])
    match content with
    | .arr blocks => blocks.foldlM processBlock acc
    | _ => pure acc

/-- One entry of the lead-summary loop (`team.py` lines 246-253): the text
fragments this entry contributes to `team_msgs`.  Note this loop has no
`isinstance(block, dict)` guard, so `block.get` raises on non-dict blocks. -/
def leadTextsOfEntry (msg : Msg) : Except String (List JVal) := do
  if pyEq (msgGetD msg "type" .null) (.str "assistant") then
    let b ← is_team_message msg
    if b then
      let inner := msgGetD msg "message" (.obj [])
      let content ← JVal.pyGet inner "content" (.arr [])
      match content with
      | .arr blocks =>
          blocks.foldlM (fun ts block => do
            let ty ← JVal.pyGet block "type" .null
            if pyEq ty (.str "text") then
              let tx ← JVal.pyGet block "text" (.str "")
              let sl ← pySliceTo300 tx
              pure (ts ++ [sl])
            else pure ts) []
      | _ => pure []
    else pure []
  else pure []

/-- `extract_team_state(messages)` (`team.py` lines 158-259). -/
def extract_team_state (messages : List Entry) : Except String TeamState := do
  let acc ← messages.foldlM processEntry {}
  let teamMsgs ← messages.foldlM (fun ts e => do
      let more ← leadTextsOfEntry e.2.1
      pure (ts ++ more)) ([] : List JVal)
  let summary ←
    if teamMsgs.isEmpty then pure ""
    else pyJoin " [...] " (teamMsgs.drop (teamMsgs.length - 3))
  pure { team_name := acc.team_name,
         teammates := acc.seen_teammates.map Prod.snd,
         tasks := acc.seen_tasks.map Prod.snd,
         lead_summary := summary,
         message_count := acc.message_count,
         last_coordination_index := acc.last_coordination_index }

/-! ## `inject_team_recovery` (`team.py` lines 277-373)

`datetime.now().isoformat()` and the two fresh `uuid4` values are
nondeterministic inputs of the code; they are passed as parameters. -/

/-- The scan `for _, msg, _ in reversed(messages): if msg.get("uuid"): ...`
(`team.py` lines 297-303): the last entry (in list order) whose `uuid` is
truthy, yielding `(uuid, sessionId, cwd, gitBranch)`. -/
def findLastUuid : List Entry → Option (JVal × JVal × JVal × JVal)
  | [] => none
  | e :: rest =>
      match findLastUuid rest with
      | some r => some r
      | none =>
          let msg := e.2.1
          let u := msgGetD msg "uuid" .null
          if truthy u then
            some (u, msgGetD msg "sessionId" .null, msgGetD msg "cwd" .null,
                  msgGetD msg "gitBranch" .null)
          else none

/-- `next_idx = max(idx for idx, _, _ in messages) + 1 if messages else 0`
(`team.py` line 368). -/
def nextIdx (messages : List Entry) : Nat :=
  if messages.isEmpty then 0
  else (messages.map (fun e => e.1)).foldl Nat.max 0 + 1

/-- The synthetic `user_msg` dict (`team.py` lines 318-336). -/
def recoveryUserMsg (now userUuid : String)
    (lastUuid lastSessionId lastCwd lastGitBranch : JVal)
    (recoveryText : String) : Msg :=
  [("type", .str "user"), ("uuid", .str userUuid),
   ("parentUuid", lastUuid), ("sessionId", lastSessionId),
   ("timestamp", .str now), ("cwd", lastCwd),
   ("gitBranch", lastGitBranch), ("isSidechain", .bool false),
   ("userType", .str "external"),
   ("message", .obj [("role", .str "user"),
     ("content", .str
       ("[Cozempic Guard: Context was pruned to prevent compaction. Confirm the current agent team state below.]\n\n"
         ++ recoveryText))])]

/-- The synthetic `assistant_msg` dict (`team.py` lines 339-362). -/
def recoveryAssistantMsg (now userUuid assistantUuid : String)
    (lastSessionId lastCwd lastGitBranch : JVal)
    (recoveryText : String) : Msg :=
  [("type", .str "assistant"), ("uuid", .str assistantUuid),
   ("parentUuid", .str userUuid), ("sessionId", lastSessionId),
   ("timestamp", .str now), ("cwd", lastCwd),
   ("gitBranch", lastGitBranch), ("isSidechain", .bool false),
   ("userType", .str "external"),
   ("message", .obj [("role", .str "assistant"),
     ("content", .arr [.obj [("type", .str "text"),
       ("text", .str
         ("Confirmed — I have an active agent team. " ++ recoveryText
           ++ "\n\nA team state checkpoint was also written to .claude/team-checkpoint.md."
           ++ "\n\nContinuing with team coordination."))]])])]

/-- `inject_team_recovery(messages, state)` (`team.py` lines 277-373). -/
def inject_team_recovery (now userUuid assistantUuid : String)
    (messages : List Entry) (state : TeamState) :
    Except String (List Entry) := do
  if state.is_empty then pure messages
  else
    match findLastUuid messages with
    | none => pure messages
    | some (lastUuid, lastSessionId, lastCwd, lastGitBranch) =>
        let recoveryText ← state.to_recovery_text
        let userMsg : Msg :=
          recoveryUserMsg now userUuid lastUuid lastSessionId lastCwd
            lastGitBranch recoveryText
        let assistantMsg : Msg :=
          recoveryAssistantMsg now userUuid assistantUuid lastSessionId
            lastCwd lastGitBranch recoveryText
        let userLine := dumps (.obj userMsg)
        let assistantLine := dumps (.obj assistantMsg)
        let n := nextIdx messages
        pure (messages ++
          [(n, userMsg, userLine.utf8ByteSize),
           (n + 1, assistantMsg, assistantLine.utf8ByteSize)])

/-! ## `prune_with_team_protect` (`guard.py` lines 37-87) -/

/-- The partition loop (`guard.py` lines 67-75): split entries into
`(team_messages, non_team_messages)`, each preserving input order. -/
def partitionTeam : List Entry → Except String (List Entry × List Entry)
  | [] => .ok ([], [])
  | e :: rest => do
      let b ← is_team_message e.2.1
      let (team, nonTeam) ← partitionTeam rest
      if b then pure (e :: team, nonTeam) else pure (team, e :: nonTeam)

/-- `prune_with_team_protect(messages, rx_name, config)` (`guard.py`
lines 37-87).

Modelled from the spec: `run_prescription` and `PRESCRIPTIONS`
(`executor.py` / `registry.py`, not under `src/`) are the external Reducer,
"a pure external collaborator" selected by `rx_name`; the composite
`run_prescription(·, strategy_names, config)` is passed as the function
parameter `run_prescription`, constrained only by the Reducer contract.
The injection nondeterminism parameters are threaded through. -/
def prune_with_team_protect {ρ : Type}
    (run_prescription : List Entry → List Entry × ρ)
    (now userUuid assistantUuid : String)
    (messages : List Entry) :
    Except String (List Entry × ρ × TeamState) := do
  let teamState ← extract_team_state messages
  if teamState.is_empty then
    let (newMessages, results) := run_prescription messages
    pure (newMessages, results, teamState)
  else
    let (teamMessages, nonTeamMessages) ← partitionTeam messages
    let (prunedNonTeam, results) := run_prescription nonTeamMessages
    let allMessages := (prunedNonTeam ++ teamMessages).mergeSort
      (fun a b => a.1 ≤ b.1)
    let allMessages2 ← inject_team_recovery now userUuid assistantUuid
      allMessages teamState
    pure (allMessages2, results, teamState)

/-! ## The Reducer contract (spec section 4.3) -/

/-- A reduced entry against its original: the entry content and byte size
are unchanged, the assigned position is at most the original one. -/
def entryDominated (y x : Entry) : Prop := y.1 ≤ x.1 ∧ y.2 = x.2

/-- The reducer "operates only on the subsequence handed to it and returns
a subsequence with monotonic, not-necessarily-contiguous original-order
positions", each at most its original position. -/
def IsReduction (ys xs : List Entry) : Prop :=
  ∃ xs', xs'.Sublist xs ∧ List.Forall₂ entryDominated ys xs'

/-- The Reducer contract, for every input handed to the reducer. -/
def ReducerOK {ρ : Type} (rx : List Entry → List Entry × ρ) : Prop :=
  ∀ xs, List.Pairwise (fun a b : Entry => a.1 ≤ b.1) (rx xs).1 ∧
    IsReduction (rx xs).1 xs

/-! ## Helper lemmas on `Except` and folds -/

@[simp] theorem ok_bind {α β : Type} (a : α) (f : α → Except String β) :
    (Except.ok a >>= f) = f a := rfl

@[simp] theorem error_bind {α β : Type} (e : String) (f : α → Except String β) :
    ((Except.error e : Except String α) >>= f) = .error e := rfl

theorem bind_eq_ok {α β : Type} {x : Except String α} {f : α → Except String β}
    {c : β} : x >>= f = .ok c ↔ ∃ b, x = .ok b ∧ f b = .ok c := by
  cases x <;> simp [Bind.bind, Except.bind]

theorem pure_eq_ok {α : Type} {a b : α} :
    (pure a : Except String α) = .ok b ↔ a = b := by
  simp [pure, Except.pure]

/-- An invariant preserved by each successful step of a monadic fold is
preserved by the whole fold. -/
theorem foldlM_ok_induct {α β : Type} (f : β → α → Except String β)
    (P : β → Prop)
    (hstep : ∀ b a b', P b → f b a = .ok b' → P b') :
    ∀ (l : List α) (b b' : β), P b → l.foldlM f b = .ok b' → P b' := by
  intro l
  induction l with
  | nil => intro b b' hP h; simp only [List.foldlM_nil, pure_eq_ok] at h; exact h ▸ hP
  | cons a l ih =>
      intro b b' hP h
      simp only [List.foldlM_cons, bind_eq_ok] at h
      obtain ⟨c, hc, hrest⟩ := h
      exact ih c b' (hstep b a c hP hc) hrest

/-! ## C10: totality of `extract_team_state` -/

/-- The failing input for C10: one coordination-relevant assistant entry
whose content list holds a text block followed by a raw (non-dict) string
block.  The first extraction loop skips the non-dict block
(`isinstance(block, dict)` guard, `team.py` line 185), but the
lead-summary loop (`team.py` line 252) calls `block.get("type")` on it. -/
def nonDictBlockEntry : Entry :=
  (0, [("type", .str "assistant"),
       ("message", .obj [("content", .arr
         [.obj [("type", .str "text"), ("text", .str "my teammate")],
          .str "oops"])])], 42)

/-- **C10** (code bug): `extract_team_state` is not total.  On an entry
list whose only entry is an assistant-role coordination entry with a
non-dict block in its content list, it raises `AttributeError`
(`'str' object has no attribute 'get'`) in the lead-summary loop, instead
of returning a `TeamState`. -/
theorem extract_crashes_on_nondict_block :
    extract_team_state [nonDictBlockEntry] =
      .error "AttributeError: get on non-dict" := rfl

/-! ## C5: empty extraction and full delegation -/

theorem processEntry_not_team {acc : ExtAcc} {e : Entry}
    (h : is_team_message e.2.1 = .ok false) :
    processEntry acc e = .ok acc := by
  obtain ⟨idx, msg, sz⟩ := e
  simp only [processEntry] at *
  rw [h]
  rfl

theorem leadTextsOfEntry_not_team {msg : Msg}
    (h : is_team_message msg = .ok false) :
    leadTextsOfEntry msg = .ok [] := by
  unfold leadTextsOfEntry
  split
  · rw [h]; rfl
  · rfl

theorem processEntry_fold_not_team : ∀ (messages : List Entry),
    (∀ e ∈ messages, is_team_message e.2.1 = .ok false) →
    ∀ acc : ExtAcc, List.foldlM processEntry acc messages = .ok acc := by
  intro messages
  induction messages with
  | nil => intro _ acc; rfl
  | cons e l ih =>
      intro h acc
      rw [List.foldlM_cons, processEntry_not_team (h e (by simp)), ok_bind]
      exact ih (fun e' he' => h e' (by simp [he'])) acc

theorem leadTexts_fold_not_team : ∀ (messages : List Entry),
    (∀ e ∈ messages, is_team_message e.2.1 = .ok false) →
    ∀ ts : List JVal, List.foldlM
      (fun (ts : List JVal) (e : Entry) => do
        let more ← leadTextsOfEntry e.2.1
        pure (ts ++ more)) ts messages = .ok ts := by
  intro messages
  induction messages with
  | nil => intro _ ts; rfl
  | cons e l ih =>
      intro h ts
      rw [List.foldlM_cons, leadTextsOfEntry_not_team (h e (by simp)), ok_bind]
      simpa using ih (fun e' he' => h e' (by simp [he'])) ts

/-- **C5**: on a log with no coordination-relevant entry, `extract`
returns the empty `TeamState` (with `message_count = 0`), `is_empty`
holds exactly when `team_name` is falsy and `teammates` and `tasks` are
both empty, and `prune_with_team_protect` hands the whole untouched log
to the Reducer, performing no partition and no injection. -/
theorem extract_empty_state_and_prune_delegates {ρ : Type}
    (rx : List Entry → List Entry × ρ) (now userUuid assistantUuid : String)
    (messages : List Entry)
    (h : ∀ e ∈ messages, is_team_message e.2.1 = .ok false) :
    extract_team_state messages = .ok {} ∧
    ({} : TeamState).is_empty = true ∧
    ({} : TeamState).message_count = 0 ∧
    prune_with_team_protect rx now userUuid assistantUuid messages =
      .ok ((rx messages).1, (rx messages).2, {}) ∧
    (∀ st : TeamState, st.is_empty = true ↔
      (truthy st.team_name = false ∧ st.teammates = [] ∧ st.tasks = [])) := by
  have hex : extract_team_state messages = .ok {} := by
    unfold extract_team_state
    rw [processEntry_fold_not_team messages h {}, ok_bind,
      leadTexts_fold_not_team messages h [], ok_bind]
    rfl
  refine ⟨hex, rfl, rfl, ?_, ?_⟩
  · unfold prune_with_team_protect
    rw [hex, ok_bind]
    rfl
  · intro st
    obtain ⟨tn, tms, tks, ls, mc, lc⟩ := st
    simp [TeamState.is_empty, List.isEmpty_iff, and_assoc]

/-! ## C7: injection without a causal id is a recoverable no-op -/

theorem findLastUuid_none {messages : List Entry}
    (h : ∀ e ∈ messages, truthy (msgGetD e.2.1 "uuid" .null) = false) :
    findLastUuid messages = none := by
  induction messages with
  | nil => rfl
  | cons e l ih =>
      unfold findLastUuid
      rw [ih (fun e' he' => h e' (by simp [he']))]
      simp [h e (by simp)]

/-- **C7**: for a non-empty `TeamState` and an entry list in which no
entry carries a truthy `uuid`, `inject_team_recovery` returns the input
list unchanged and raises no error. -/
theorem inject_no_causal_id_noop (now userUuid assistantUuid : String)
    (messages : List Entry) (state : TeamState)
    (hne : state.is_empty = false)
    (h : ∀ e ∈ messages, truthy (msgGetD e.2.1 "uuid" .null) = false) :
    inject_team_recovery now userUuid assistantUuid messages state =
      .ok messages := by
  unfold inject_team_recovery
  rw [hne, findLastUuid_none h]
  rfl

/-- Witness for C7 at a concrete input. -/
theorem inject_no_causal_id_noop_witness :
    inject_team_recovery "T0" "U1" "U2"
      [(0, [("message", .obj [("content", .str "hi")])], 9)]
      { team_name := .str "alpha" } =
    .ok [(0, [("message", .obj [("content", .str "hi")])], 9)] :=
  inject_no_causal_id_noop "T0" "U1" "U2" _ _ rfl
    (by intro e he; simp at he; subst he; rfl)

/-- Witness for C5 at a concrete input: one plain chat entry. -/
theorem extract_empty_state_and_prune_delegates_witness :
    extract_team_state [(0, [("message", .obj [("content", .str "hello")])], 6)]
      = .ok {} :=
  (extract_empty_state_and_prune_delegates (fun l => (l, 0)) "T0" "U1" "U2"
    [(0, [("message", .obj [("content", .str "hello")])], 6)]
    (by intro e he; simp at he; subst he; rfl)).1

/-! ## C2: `team_name` on repeated team creation -/

/-- A log entry holding a single `TeamCreate` tool invocation whose input
provides the team name `nm` and no teammates. -/
def teamCreateEntry (nm : String) : Entry :=
  (0, [("message", .obj [("content", .arr [.obj
    [("type", .str "tool_use"), ("name", .str "TeamCreate"),
     ("input", .obj [("name", .str nm)])]])])], 10)

/-- **C2** (counterexample): `team_name` is not first-non-empty-wins.
A first team creation sets the name to `"A"`; a second team creation
providing `"B"` overwrites the already-set name, so the extracted name of
the two-entry log is `"B"`, not `"A"` as the claim requires. -/
theorem teamcreate_overwrites_team_name_cex :
    (extract_team_state [teamCreateEntry "A"]).map TeamState.team_name =
      .ok (.str "A") ∧
    (extract_team_state [teamCreateEntry "A", teamCreateEntry "B"]).map
      TeamState.team_name = .ok (.str "B") ∧
    JVal.str "B" ≠ JVal.str "A" :=
  ⟨rfl, rfl, by intro hc; injection hc with hs; exact absurd hs (by decide)⟩

/-- **C2** (amended): `team_name` is last-provided-wins.  A team-creation
invocation whose input dict contains the key `"name"` sets `team_name` to
that value unconditionally — even overwriting a previously set name, and
even with an empty provided value; an invocation without the key leaves
`team_name` unchanged (`state.team_name = inp.get("name", state.team_name)`,
`team.py` line 195). -/
theorem teamcreate_team_name_last_provided_wins
    (acc acc' : ExtAcc) (kvs ikvs : List (String × JVal))
    (hty : pyEq (msgGetD kvs "type" .null) (.str "tool_use") = true)
    (hnm : pyEq (msgGetD kvs "name" (.str "")) (.str "TeamCreate") = true)
    (hinp : msgGetD kvs "input" (.obj []) = .obj ikvs)
    (h : processBlock acc (.obj kvs) = .ok acc') :
    acc'.team_name = (ikvs.lookup "name").getD acc.team_name := by
  simp only [processBlock, hty, hnm, hinp, Bool.not_true, Bool.false_eq_true,
    if_false, if_true, JVal.pyGet, ok_bind] at h
  rw [bind_eq_ok] at h
  obtain ⟨tmsV, _, h⟩ := h
  rw [bind_eq_ok] at h
  obtain ⟨tms, _, h⟩ := h
  rw [pure_eq_ok] at h
  subst h
  rfl

/-- Witness for the amended C2 at a concrete input: a set name `"A"` is
overwritten by a provided `"B"`. -/
theorem teamcreate_team_name_last_provided_wins_witness :
    ExtAcc.team_name { team_name := .str "B" } =
      (([("name", JVal.str "B")].lookup "name").getD (.str "A")) :=
  teamcreate_team_name_last_provided_wins
    { team_name := .str "A" } { team_name := .str "B" }
    [("type", .str "tool_use"), ("name", .str "TeamCreate"),
     ("input", .obj [("name", .str "B")])]
    [("name", JVal.str "B")] rfl rfl rfl rfl

/-! ## C6: task updates merge known tasks and admit unknown ones -/

/-- The C6 scenario entry: a `TaskUpdate` invocation referencing the
unseen `task_id="T9"` with `status="in_progress"`. -/
def taskUpdateT9Entry : Entry :=
  (0, [("message", .obj [("content", .arr [.obj
    [("type", .str "tool_use"), ("name", .str "TaskUpdate"),
     ("input", .obj [("taskId", .str "T9"),
       ("status", .str "in_progress")])]])])], 10)

/-- The merge a known-id `TaskUpdate` performs on the task map: the
provided `status` is written only when truthy, then the provided `owner`
only when truthy; nothing else changes. -/
def taskMergeKnown (tid stV owV : JVal) (m : List (JVal × TaskInfo)) :
    List (JVal × TaskInfo) :=
  let m1 :=
    if truthy stV then dictModify tid (fun t => { t with status := stV }) m
    else m
  if truthy owV then dictModify tid (fun t => { t with owner := owV }) m1
  else m1

/-- **C6**: a `TaskUpdate` whose `task_id` is already known merges only the
provided truthy `status`/`owner` fields (falsy fields never overwrite); one
whose `task_id` is unknown is admitted as a new task with the given status,
defaulting to `"unknown"` when the key is absent; and the concrete scenario
of an update to unseen `"T9"` with `status="in_progress"` yields exactly
the task `T9` with that status and empty subject. -/
theorem taskupdate_merges_known_admits_unknown
    (acc acc' : ExtAcc) (kvs ikvs : List (String × JVal)) (tid stV owV : JVal)
    (hty : pyEq (msgGetD kvs "type" .null) (.str "tool_use") = true)
    (h1 : pyEq (msgGetD kvs "name" (.str "")) (.str "TeamCreate") = false)
    (h2 : pyEq (msgGetD kvs "name" (.str "")) (.str "TaskCreate") = false)
    (hnm : pyEq (msgGetD kvs "name" (.str "")) (.str "TaskUpdate") = true)
    (hinp : msgGetD kvs "input" (.obj []) = .obj ikvs)
    (htid : tid = (ikvs.lookup "taskId").getD ((ikvs.lookup "id").getD (.str "")))
    (hst : stV = (ikvs.lookup "status").getD .null)
    (how : owV = (ikvs.lookup "owner").getD .null)
    (h : processBlock acc (.obj kvs) = .ok acc') :
    ((acc.seen_tasks.any fun kv => pyEq kv.1 tid) = true →
       acc' = { acc with
         seen_tasks := taskMergeKnown tid stV owV acc.seen_tasks }) ∧
    ((acc.seen_tasks.any fun kv => pyEq kv.1 tid) = false →
       acc' = { acc with
         seen_tasks := upsert tid ⟨tid, (ikvs.lookup "subject").getD (.str ""),
           (ikvs.lookup "status").getD (.str "unknown"),
           (ikvs.lookup "owner").getD (.str ""), .str ""⟩ acc.seen_tasks }) ∧
    (extract_team_state [taskUpdateT9Entry]).map TeamState.tasks =
      .ok [⟨.str "T9", .str "", .str "in_progress", .str "", .str ""⟩] := by
  subst htid hst how
  simp only [processBlock, hty, h1, h2, hnm, hinp, Bool.not_true,
    Bool.false_eq_true, if_false, if_true, JVal.pyGet, ok_bind] at h
  cases hh : hashable ((ikvs.lookup "taskId").getD
      ((ikvs.lookup "id").getD (.str ""))) with
  | false =>
      simp only [pyDictMem, hh, Bool.false_eq_true, if_false, error_bind] at h
      exact absurd h (by simp)
  | true =>
      simp only [pyDictMem, hh, if_true, ok_bind] at h
      refine ⟨?_, ?_, rfl⟩
      · intro hmem
        rw [hmem] at h
        simp only [if_true, JVal.pyGet, ok_bind] at h
        cases hstv : truthy ((ikvs.lookup "status").getD .null) <;>
          cases howv : truthy ((ikvs.lookup "owner").getD .null) <;>
            rw [hstv, howv] at h <;>
            simp only [if_true, if_false, Bool.false_eq_true, pure_eq_ok] at h <;>
            subst h <;>
            simp [taskMergeKnown, hstv, howv]
      · intro hmem
        rw [hmem] at h
        simp only [Bool.false_eq_true, if_false, JVal.pyGet, ok_bind,
          pyDictSet, hh, if_true, pure_eq_ok] at h
        subst h
        rfl

/-- Witness accumulator for C6: one known task `T1`, status `pending`. -/
def c6Acc : ExtAcc :=
  { seen_tasks :=
      [(.str "T1", ⟨.str "T1", .str "fix", .str "pending", .str "", .str ""⟩)] }

/-- Witness result accumulator for C6: `T1` with status `done`. -/
def c6Acc' : ExtAcc :=
  { seen_tasks :=
      [(.str "T1", ⟨.str "T1", .str "fix", .str "done", .str "", .str ""⟩)] }

/-- Witness for C6 at a concrete input: updating known `T1` with
`status="done"` and no owner merges only the status. -/
theorem taskupdate_merges_known_admits_unknown_witness :
    c6Acc' = { c6Acc with
      seen_tasks :=
        taskMergeKnown (.str "T1") (.str "done") .null c6Acc.seen_tasks } :=
  (taskupdate_merges_known_admits_unknown c6Acc c6Acc'
    [("type", .str "tool_use"), ("name", .str "TaskUpdate"),
     ("input", .obj [("taskId", .str "T1"), ("status", .str "done")])]
    [("taskId", .str "T1"), ("status", .str "done")]
    (.str "T1") (.str "done") .null
    rfl rfl rfl rfl rfl rfl rfl rfl rfl).1 rfl

/-! ## C1: protection of coordination-relevant entries -/

theorem partitionTeam_mem_team :
    ∀ {messages team nonTeam : List Entry},
    partitionTeam messages = .ok (team, nonTeam) →
    ∀ e ∈ messages, is_team_message e.2.1 = .ok true → e ∈ team := by
  intro messages
  induction messages with
  | nil => intro team nonTeam h e he; simp at he
  | cons x l ih =>
      intro team nonTeam h e he hteam
      simp only [partitionTeam, bind_eq_ok] at h
      obtain ⟨b, hb, h⟩ := h
      obtain ⟨⟨t', nt'⟩, hrec, h⟩ := h
      rcases List.mem_cons.mp he with he | he
      · subst he
        rw [hteam] at hb
        injection hb with hb
        subst hb
        simp only [if_true, pure_eq_ok, Prod.mk.injEq] at h
        rw [← h.1]
        exact List.mem_cons_self _ _
      · have hmem : e ∈ t' := ih hrec e he hteam
        cases b <;> simp only [if_true, if_false, Bool.false_eq_true,
          pure_eq_ok, Prod.mk.injEq] at h <;> rw [← h.1]
        · exact hmem
        · exact List.mem_cons_of_mem _ hmem

theorem inject_mem_mono {now u a : String} {l out : List Entry}
    {st : TeamState}
    (h : inject_team_recovery now u a l st = .ok out) :
    ∀ x ∈ l, x ∈ out := by
  intro x hx
  unfold inject_team_recovery at h
  cases hse : st.is_empty with
  | true =>
      rw [hse] at h
      simp only [if_true, pure_eq_ok] at h
      exact h ▸ hx
  | false =>
      rw [hse] at h
      simp only [Bool.false_eq_true, if_false] at h
      cases hf : findLastUuid l with
      | none =>
          rw [hf] at h
          simp only [pure_eq_ok] at h
          exact h ▸ hx
      | some q =>
          obtain ⟨lu, sid, cw, gb⟩ := q
          rw [hf] at h
          rw [bind_eq_ok] at h
          obtain ⟨rt, _, h⟩ := h
          rw [pure_eq_ok] at h
          rw [← h]
          exact List.mem_append_left _ hx

/-- **C1** (amended): whenever the extracted `TeamState` is non-empty,
every entry classified as coordination-relevant by `_is_team_message`
appears, as the identical `(position, entry, byte_size)` triple, in the
output of `prune_with_team_protect`.  (When the extracted state is empty,
the whole log — classified entries included — is handed to the Reducer,
which may drop them; see the counterexample.) -/
theorem prune_protects_team_entries {ρ : Type}
    (rx : List Entry → List Entry × ρ) (now userUuid assistantUuid : String)
    (messages out : List Entry) (res : ρ) (st : TeamState)
    (h : prune_with_team_protect rx now userUuid assistantUuid messages =
      .ok (out, res, st))
    (hne : st.is_empty = false) :
    ∀ e ∈ messages, is_team_message e.2.1 = .ok true → e ∈ out := by
  intro e he hteam
  unfold prune_with_team_protect at h
  rw [bind_eq_ok] at h
  obtain ⟨ts, hts, h⟩ := h
  cases hem : ts.is_empty with
  | true =>
      rw [hem] at h
      simp only [if_true, pure_eq_ok, Prod.mk.injEq] at h
      obtain ⟨-, -, hst⟩ := h
      rw [← hst, hem] at hne
      cases hne
  | false =>
      rw [hem] at h
      simp only [Bool.false_eq_true, if_false, bind_eq_ok] at h
      obtain ⟨⟨team, nonTeam⟩, hpart, h⟩ := h
      obtain ⟨out2, hinj, h⟩ := h
      simp only [pure_eq_ok, Prod.mk.injEq] at h
      obtain ⟨hout, -, -⟩ := h
      have h1 : e ∈ team := partitionTeam_mem_team hpart e he hteam
      have h2 : e ∈ ((rx nonTeam).1 ++ team).mergeSort
          (fun x y => x.1 ≤ y.1) :=
        List.mem_mergeSort.mpr (List.mem_append_right _ h1)
      rw [← hout]
      exact inject_mem_mono hinj e h2

unseal List.merge List.mergeSort in
/-- Witness for the amended C1: a one-entry log holding a `TeamCreate`
invocation survives a drop-everything reducer. -/
theorem prune_protects_team_entries_witness :
    teamCreateEntry "A" ∈ [teamCreateEntry "A"] :=
  prune_protects_team_entries (fun _ => ([], ())) "T0" "U1" "U2"
    [teamCreateEntry "A"] [teamCreateEntry "A"] ()
    { team_name := .str "A", message_count := 1, last_coordination_index := 0 }
    rfl rfl (teamCreateEntry "A") (by simp) rfl

/-- The C1 counterexample entry: classified coordination-relevant via the
keyword pattern alone (no tool invocation), so the extracted `TeamState`
stays empty. -/
def keywordOnlyEntry : Entry :=
  (0, [("message", .obj [("content", .str "ping my teammate")])], 7)

/-- **C1** (counterexample): with an empty extracted `TeamState`,
`prune_with_team_protect` delegates the entire log to the Reducer, and a
contract-satisfying reducer that drops everything erases the
coordination-relevant entry: the claim fails "when the extracted TeamState
is empty". -/
theorem prune_empty_state_drops_team_entry_cex :
    ReducerOK (fun _ => ([], ())) ∧
    is_team_message keywordOnlyEntry.2.1 = .ok true ∧
    prune_with_team_protect (fun _ => ([], ())) "T0" "U1" "U2"
      [keywordOnlyEntry] =
      .ok ([], (), { message_count := 1, last_coordination_index := 0 }) ∧
    keywordOnlyEntry ∉ ([] : List Entry) := by
  refine ⟨?_, rfl, rfl, by simp⟩
  intro xs
  exact ⟨List.Pairwise.nil, [], List.nil_sublist xs, List.Forall₂.nil⟩

/-! ## C3: the output of prune is sorted by original position -/

theorem foldl_max_init_le (l : List Nat) (a : Nat) : a ≤ l.foldl Nat.max a := by
  induction l generalizing a with
  | nil => simp
  | cons x l ih =>
      rw [List.foldl_cons]
      exact le_trans (Nat.le_max_left a x) (ih (Nat.max a x))

theorem mem_le_foldl_max {x : Nat} :
    ∀ (l : List Nat) (a : Nat), x ∈ l → x ≤ l.foldl Nat.max a := by
  intro l
  induction l with
  | nil => intro a hx; simp at hx
  | cons y l ih =>
      intro a hx
      rcases List.mem_cons.mp hx with hx | hx
      · subst hx
        rw [List.foldl_cons]
        exact le_trans (Nat.le_max_right a x) (foldl_max_init_le l _)
      · exact ih _ hx

theorem lt_nextIdx {e : Entry} {l : List Entry} (he : e ∈ l) :
    e.1 < nextIdx l := by
  unfold nextIdx
  rw [if_neg (by simp [List.isEmpty_iff]; exact List.ne_nil_of_mem he)]
  exact Nat.lt_succ_of_le
    (mem_le_foldl_max _ 0 (List.mem_map_of_mem (fun e => e.1) he))

theorem findLastUuid_ne_nil {l : List Entry} {q}
    (h : findLastUuid l = some q) : l ≠ [] := by
  intro hnil
  subst hnil
  simp [findLastUuid] at h

theorem inject_preserves_sorted {now u a : String} {l out : List Entry}
    {st : TeamState}
    (hs : List.Pairwise (fun x y : Entry => x.1 ≤ y.1) l)
    (h : inject_team_recovery now u a l st = .ok out) :
    List.Pairwise (fun x y : Entry => x.1 ≤ y.1) out := by
  unfold inject_team_recovery at h
  cases hse : st.is_empty with
  | true =>
      rw [hse] at h
      simp only [if_true, pure_eq_ok] at h
      exact h ▸ hs
  | false =>
      rw [hse] at h
      simp only [Bool.false_eq_true, if_false] at h
      cases hf : findLastUuid l with
      | none =>
          rw [hf] at h
          simp only [pure_eq_ok] at h
          exact h ▸ hs
      | some q =>
          obtain ⟨lu, sid, cw, gb⟩ := q
          rw [hf] at h
          rw [bind_eq_ok] at h
          obtain ⟨rt, -, h⟩ := h
          rw [pure_eq_ok] at h
          subst h
          rw [List.pairwise_append]
          refine ⟨hs, ?_, ?_⟩
          · simp
          · intro x hx y hy
            have hlt : x.1 < nextIdx l := lt_nextIdx hx
            rcases List.mem_cons.mp hy with hy | hy
            · subst hy; exact le_of_lt hlt
            · rcases List.mem_cons.mp hy with hy | hy
              · subst hy; exact le_of_lt (Nat.lt_succ_of_lt hlt)
              · simp at hy

/-- **C3**: for a Reducer satisfying the contract, the entry list returned
by `prune_with_team_protect` (the two injected recovery entries included)
is sorted in non-decreasing order of position, i.e. no entry is reordered
relative to another by position. -/
theorem prune_output_sorted_by_position {ρ : Type}
    (rx : List Entry → List Entry × ρ) (now userUuid assistantUuid : String)
    (messages out : List Entry) (res : ρ) (st : TeamState)
    (hrx : ReducerOK rx)
    (h : prune_with_team_protect rx now userUuid assistantUuid messages =
      .ok (out, res, st)) :
    List.Pairwise (fun x y : Entry => x.1 ≤ y.1) out := by
  unfold prune_with_team_protect at h
  rw [bind_eq_ok] at h
  obtain ⟨ts, -, h⟩ := h
  cases hem : ts.is_empty with
  | true =>
      rw [hem] at h
      simp only [if_true, pure_eq_ok, Prod.mk.injEq] at h
      obtain ⟨hout, -, -⟩ := h
      exact hout ▸ (hrx messages).1
  | false =>
      rw [hem] at h
      simp only [Bool.false_eq_true, if_false, bind_eq_ok] at h
      obtain ⟨⟨team, nonTeam⟩, -, h⟩ := h
      obtain ⟨out2, hinj, h⟩ := h
      simp only [pure_eq_ok, Prod.mk.injEq] at h
      obtain ⟨hout, -, -⟩ := h
      subst hout
      have hsorted : List.Pairwise (fun x y : Entry => x.1 ≤ y.1)
          (((rx nonTeam).1 ++ team).mergeSort (fun x y => x.1 ≤ y.1)) := by
        have := @List.sorted_mergeSort Entry
          (fun x y : Entry => decide (x.1 ≤ y.1))
          (fun x y z h1 h2 => by
            simp only [decide_eq_true_eq] at *
            omega)
          (fun x y => by
            simp only [Bool.or_eq_true, decide_eq_true_eq]
            omega)
          ((rx nonTeam).1 ++ team)
        exact this.imp (by simp)
      exact inject_preserves_sorted hsorted hinj

/-- Witness for C3 at a concrete input: the empty log with a
drop-everything reducer. -/
theorem prune_output_sorted_by_position_witness :
    List.Pairwise (fun x y : Entry => x.1 ≤ y.1) [] :=
  prune_output_sorted_by_position (fun _ => ([], ())) "T0" "U1" "U2"
    [] [] () {}
    (fun xs => ⟨List.Pairwise.nil, [], List.nil_sublist xs, List.Forall₂.nil⟩)
    rfl

/-! ## C9 and C4: structure of the injected recovery pair -/

/-- `max(idx for idx, _, _ in messages)` over a non-empty list. -/
def maxIdx (messages : List Entry) : Nat :=
  (messages.map (fun e => e.1)).foldl Nat.max 0

theorem nextIdx_eq_maxIdx {l : List Entry} (h : l ≠ []) :
    nextIdx l = maxIdx l + 1 := by
  unfold nextIdx maxIdx
  rw [if_neg (by simpa [List.isEmpty_iff] using h)]

theorem inject_ok_structure {now u a : String} {l out : List Entry}
    {st : TeamState} {lu sid cw gb : JVal}
    (hse : st.is_empty = false)
    (hf : findLastUuid l = some (lu, sid, cw, gb))
    (h : inject_team_recovery now u a l st = .ok out) :
    ∃ rt : String, st.to_recovery_text = .ok rt ∧
      out = l ++
        [(nextIdx l, recoveryUserMsg now u lu sid cw gb rt,
          (dumps (.obj (recoveryUserMsg now u lu sid cw gb rt))).utf8ByteSize),
         (nextIdx l + 1, recoveryAssistantMsg now u a sid cw gb rt,
          (dumps (.obj
            (recoveryAssistantMsg now u a sid cw gb rt))).utf8ByteSize)] := by
  unfold inject_team_recovery at h
  rw [hse, hf] at h
  simp only [Bool.false_eq_true, if_false] at h
  rw [bind_eq_ok] at h
  obtain ⟨rt, hrt, h⟩ := h
  rw [pure_eq_ok] at h
  exact ⟨rt, hrt, h.symm⟩

/-- **C9**: when injection proceeds on a non-empty entry list, the output
is exactly the input entries, unchanged and in order, followed by exactly
two new entries at positions `max+1` and `max+2`, where `max` bounds every
input position.  (The input list itself is unchanged; the function is pure
in this embedding, mirroring `messages = list(messages)` in the source.) -/
theorem inject_appends_two_entries_at_end
    (now userUuid assistantUuid : String) (messages out : List Entry)
    (st : TeamState)
    (hse : st.is_empty = false)
    (hf : (findLastUuid messages).isSome = true)
    (h : inject_team_recovery now userUuid assistantUuid messages st =
      .ok out) :
    ∃ um am su sa,
      out = messages ++
        [(maxIdx messages + 1, um, su), (maxIdx messages + 2, am, sa)] ∧
      ∀ e ∈ messages, e.1 ≤ maxIdx messages := by
  obtain ⟨⟨lu, sid, cw, gb⟩, hf'⟩ := Option.isSome_iff_exists.mp hf
  obtain ⟨rt, -, hout⟩ := inject_ok_structure hse hf' h
  have hne : messages ≠ [] := findLastUuid_ne_nil hf'
  rw [nextIdx_eq_maxIdx hne] at hout
  refine ⟨_, _, _, _, hout, ?_⟩
  intro e he
  exact mem_le_foldl_max _ 0 (List.mem_map_of_mem (fun e => e.1) he)

/-- **C4** (amended): when injection proceeds, the new user entry's
`parentUuid` equals the `uuid` of the *last* uuid-bearing entry in list
order (equal to the highest-position one exactly when the list is sorted
by position — see the counterexample for an unsorted list), the new
assistant entry's `parentUuid` equals the new user entry's fresh `uuid`,
and both new entries carry the `sessionId`, `cwd` and `gitBranch` captured
from that same last uuid-bearing entry. -/
theorem inject_chains_to_last_uuid_entry
    (now userUuid assistantUuid : String) (messages out : List Entry)
    (st : TeamState) (lu sid cw gb : JVal)
    (hse : st.is_empty = false)
    (hf : findLastUuid messages = some (lu, sid, cw, gb))
    (h : inject_team_recovery now userUuid assistantUuid messages st =
      .ok out) :
    ∃ (rt : String) (su sa : Nat),
      st.to_recovery_text = .ok rt ∧
      out = messages ++
        [(nextIdx messages,
          recoveryUserMsg now userUuid lu sid cw gb rt, su),
         (nextIdx messages + 1,
          recoveryAssistantMsg now userUuid assistantUuid sid cw gb rt, sa)] ∧
      msgGetD (recoveryUserMsg now userUuid lu sid cw gb rt)
        "parentUuid" .null = lu ∧
      msgGetD (recoveryUserMsg now userUuid lu sid cw gb rt)
        "uuid" .null = .str userUuid ∧
      msgGetD (recoveryAssistantMsg now userUuid assistantUuid sid cw gb rt)
        "parentUuid" .null = .str userUuid ∧
      msgGetD (recoveryUserMsg now userUuid lu sid cw gb rt)
        "sessionId" .null = sid ∧
      msgGetD (recoveryAssistantMsg now userUuid assistantUuid sid cw gb rt)
        "sessionId" .null = sid ∧
      msgGetD (recoveryUserMsg now userUuid lu sid cw gb rt)
        "cwd" .null = cw ∧
      msgGetD (recoveryAssistantMsg now userUuid assistantUuid sid cw gb rt)
        "cwd" .null = cw ∧
      msgGetD (recoveryUserMsg now userUuid lu sid cw gb rt)
        "gitBranch" .null = gb ∧
      msgGetD (recoveryAssistantMsg now userUuid assistantUuid sid cw gb rt)
        "gitBranch" .null = gb := by
  obtain ⟨rt, hrt, hout⟩ := inject_ok_structure hse hf h
  exact ⟨rt, _, _, hrt, hout, rfl, rfl, rfl, rfl, rfl, rfl, rfl, rfl, rfl⟩

/-- C4 counterexample log, first entry: position 5, uuid `"A"`, full session
metadata, and a `TeamCreate` invocation making the extracted state
non-empty. -/
def cexC4a : Msg :=
  [("uuid", .str "A"), ("sessionId", .str "s1"), ("cwd", .str "/w"),
   ("gitBranch", .str "main"),
   ("message", .obj [("content", .arr [.obj
     [("type", .str "tool_use"), ("name", .str "TeamCreate"),
      ("input", .obj [("name", .str "T")])]])])]

/-- C4 counterexample log, second entry: position 3, uuid `"B"`. -/
def cexC4b : Msg := [("uuid", .str "B")]

/-- The C4 counterexample log: positions out of list order, so the last
entry in list order (uuid `"B"`) is not the highest-position one
(uuid `"A"`). -/
def cexC4msgs : List Entry := [(5, cexC4a, 1), (3, cexC4b, 1)]

/-- The state extracted from `cexC4msgs`. -/
def cexC4state : TeamState :=
  { team_name := .str "T", message_count := 1, last_coordination_index := 5 }

/-- **C4** (counterexample): `inject_team_recovery` scans `reversed(messages)`
— list order, not position order.  On a list whose positions are not
sorted, the new user entry's `parentUuid` is the uuid `"B"` of the *last
entry in list order* (position 3), not the uuid `"A"` of the
highest-position entry (position 5), refuting the claim as stated. -/
theorem inject_parent_not_highest_position_cex :
    extract_team_state cexC4msgs = .ok cexC4state ∧
    cexC4state.is_empty = false ∧
    (inject_team_recovery "T0" "U1" "U2" cexC4msgs cexC4state).map
      (fun l => msgGetD (l.getD 2 (0, [], 0)).2.1 "parentUuid" .null) =
      .ok (.str "B") ∧
    msgGetD cexC4a "uuid" .null = .str "A" ∧
    cexC4msgs.map (fun e => e.1) = [5, 3] ∧
    JVal.str "B" ≠ JVal.str "A" :=
  ⟨rfl, rfl, rfl, rfl, rfl,
    by intro hc; injection hc with hs; exact absurd hs (by decide)⟩

/-- Concrete input for the C9 and C4 witnesses: one entry at position 5
with uuid `"A"` and full session metadata. -/
def w9msgs : List Entry :=
  [(5, [("uuid", .str "A"), ("sessionId", .str "s1"), ("cwd", .str "/w"),
        ("gitBranch", .str "main")], 4)]

/-- A non-empty team state for the C9 and C4 witnesses. -/
def w9st : TeamState := { team_name := .str "alpha" }

/-- `to_recovery_text w9st`. -/
def w4rt : String := "Active agent team: alpha"

/-- The injected user message of the witness run. -/
def w4user : Msg :=
  recoveryUserMsg "T0" "U1" (.str "A") (.str "s1") (.str "/w") (.str "main")
    w4rt

/-- The injected assistant message of the witness run. -/
def w4asst : Msg :=
  recoveryAssistantMsg "T0" "U1" "U2" (.str "s1") (.str "/w") (.str "main")
    w4rt

/-- The output of the witness injection run. -/
def w4out : List Entry :=
  w9msgs ++ [(6, w4user, (dumps (.obj w4user)).utf8ByteSize),
             (7, w4asst, (dumps (.obj w4asst)).utf8ByteSize)]

/-- Witness for C9 at a concrete input. -/
theorem inject_appends_two_entries_at_end_witness :
    ∃ um am su sa,
      w4out = w9msgs ++
        [(maxIdx w9msgs + 1, um, su), (maxIdx w9msgs + 2, am, sa)] ∧
      ∀ e ∈ w9msgs, e.1 ≤ maxIdx w9msgs :=
  inject_appends_two_entries_at_end "T0" "U1" "U2" w9msgs w4out w9st
    rfl rfl rfl

/-- Witness for the amended C4 at a concrete input. -/
theorem inject_chains_to_last_uuid_entry_witness :
    ∃ (rt : String) (su sa : Nat),
      TeamState.to_recovery_text w9st = .ok rt ∧
      w4out = w9msgs ++
        [(nextIdx w9msgs,
          recoveryUserMsg "T0" "U1" (.str "A") (.str "s1") (.str "/w")
            (.str "main") rt, su),
         (nextIdx w9msgs + 1,
          recoveryAssistantMsg "T0" "U1" "U2" (.str "s1") (.str "/w")
            (.str "main") rt, sa)] ∧
      msgGetD (recoveryUserMsg "T0" "U1" (.str "A") (.str "s1") (.str "/w")
        (.str "main") rt) "parentUuid" .null = .str "A" ∧
      msgGetD (recoveryUserMsg "T0" "U1" (.str "A") (.str "s1") (.str "/w")
        (.str "main") rt) "uuid" .null = .str "U1" ∧
      msgGetD (recoveryAssistantMsg "T0" "U1" "U2" (.str "s1") (.str "/w")
        (.str "main") rt) "parentUuid" .null = .str "U1" ∧
      msgGetD (recoveryUserMsg "T0" "U1" (.str "A") (.str "s1") (.str "/w")
        (.str "main") rt) "sessionId" .null = .str "s1" ∧
      msgGetD (recoveryAssistantMsg "T0" "U1" "U2" (.str "s1") (.str "/w")
        (.str "main") rt) "sessionId" .null = .str "s1" ∧
      msgGetD (recoveryUserMsg "T0" "U1" (.str "A") (.str "s1") (.str "/w")
        (.str "main") rt) "cwd" .null = .str "/w" ∧
      msgGetD (recoveryAssistantMsg "T0" "U1" "U2" (.str "s1") (.str "/w")
        (.str "main") rt) "cwd" .null = .str "/w" ∧
      msgGetD (recoveryUserMsg "T0" "U1" (.str "A") (.str "s1") (.str "/w")
        (.str "main") rt) "gitBranch" .null = .str "main" ∧
      msgGetD (recoveryAssistantMsg "T0" "U1" "U2" (.str "s1") (.str "/w")
        (.str "main") rt) "gitBranch" .null = .str "main" :=
  inject_chains_to_last_uuid_entry "T0" "U1" "U2" w9msgs w4out w9st
    (.str "A") (.str "s1") (.str "/w") (.str "main") rfl rfl rfl

/-! ## C8: teammate upsert on a doubled sequence of team-creation entries -/

/-- Does any key of the association list Python-equal `j`? -/
def anyKey {α : Type} (m : List (JVal × α)) (j : JVal) : Bool :=
  m.any fun kv => pyEq kv.1 j

/-- One step of collecting the truthy teammate-descriptor ids of a
`TeamCreate` teammate list (the ids `upsertTeammate` inserts). -/
def idStep (ids : List JVal) (tm : JVal) : Except String (List JVal) := do
  let agentId ← descriptorId tm
  if truthy agentId then pure (ids ++ [agentId]) else pure ids

/-- The truthy teammate-descriptor ids a content block's `TeamCreate`
invocation upserts, in order: the key set `processBlock` adds to
`seen_teammates` for this block. -/
def blockTeammateIds (block : JVal) : Except String (List JVal) := do
  match block with
  | .obj kvs =>
      if !pyEq (msgGetD kvs "type" .null) (.str "tool_use") then pure []
      else if pyEq (msgGetD kvs "name" (.str "")) (.str "TeamCreate") then
        let tmsV ← JVal.pyGet (msgGetD kvs "input" (.obj []))
          "teammates" (.arr [])
        let tms ← pyIter tmsV
        tms.foldlM idStep []
      else pure []
  | _ => pure []

/-- One step of collecting an entry's teammate-descriptor ids over its
content blocks. -/
def blkIdStep (ids : List JVal) (b : JVal) : Except String (List JVal) := do
  let more ← blockTeammateIds b
  pure (ids ++ more)

/-- The truthy `agent_id`s occurring in the teammate descriptors of the
`TeamCreate` invocations of one entry, in order. -/
def entryTeammateIds (msg : Msg) : Except String (List JVal) := do
  let content ← JVal.pyGet (msgGetD msg "message" (.obj [])) "content"
    (.arr [])
  match content with
  | .arr blocks => blocks.foldlM blkIdStep []
  | _ => pure []

/-- The invariant of the `seen_teammates` dict: keys are pairwise
non-`pyEq`, and every stored pair has a hashable key that is `pyEq` to its
value's `agent_id`, with status `"running"`. -/
def TmInv (m : List (JVal × TeammateInfo)) : Prop :=
  List.Pairwise (fun x y : JVal × TeammateInfo => pyEq x.1 y.1 = false) m ∧
  ∀ kv ∈ m, hashable kv.1 = true ∧ pyEq kv.1 kv.2.agent_id = true ∧
    kv.2.status = .str "running"

theorem pyEq_refl_hashable {v : JVal} (h : hashable v = true) :
    pyEq v v = true := by
  cases v <;> simp_all [JVal.pyEq, JVal.hashable]

theorem anyKey_upsert {α : Type} (k : JVal) (v : α) (j : JVal) :
    ∀ m : List (JVal × α),
    anyKey (upsert k v m) j = (anyKey m j || pyEq k j) := by
  intro m
  induction m with
  | nil => simp [upsert, anyKey]
  | cons kv rest ih =>
      obtain ⟨k', v'⟩ := kv
      cases hk : pyEq k' k with
      | true =>
          simp only [upsert, hk, if_true, anyKey, List.any_cons]
          cases hkj : pyEq k j with
          | true => simp [JVal.pyEq_trans hk hkj]
          | false => simp
      | false =>
          simp only [upsert, hk, Bool.false_eq_true, if_false, anyKey,
            List.any_cons]
          rw [show (List.any (upsert k v rest) fun kv => pyEq kv.1 j) =
            anyKey (upsert k v rest) j from rfl, ih, Bool.or_assoc]
          rfl

theorem upsert_key_mem {α : Type} (k : JVal) (v : α) :
    ∀ (m : List (JVal × α)) (y : JVal × α), y ∈ upsert k v m →
    y.1 ∈ m.map Prod.fst ∨ y.1 = k := by
  intro m
  induction m with
  | nil =>
      intro y hy
      simp only [upsert, List.mem_singleton] at hy
      subst hy
      simp
  | cons kv rest ih =>
      obtain ⟨k', v'⟩ := kv
      intro y hy
      cases hk : pyEq k' k with
      | true =>
          rw [upsert, hk, if_pos rfl] at hy
          rcases List.mem_cons.mp hy with hy | hy
          · subst hy; simp
          · rcases (by simpa using List.mem_map_of_mem Prod.fst hy :
                y.1 ∈ rest.map Prod.fst) with h
            simp [h]
      | false =>
          rw [upsert, hk] at hy
          simp only [Bool.false_eq_true, if_false] at hy
          rcases List.mem_cons.mp hy with hy | hy
          · subst hy; simp
          · rcases ih y hy with h | h
            · simp [h]
            · simp [h]

theorem pairwise_upsert {α : Type} (k : JVal) (v : α) :
    ∀ m : List (JVal × α),
    List.Pairwise (fun x y : JVal × α => pyEq x.1 y.1 = false) m →
    List.Pairwise (fun x y : JVal × α => pyEq x.1 y.1 = false)
      (upsert k v m) := by
  intro m
  induction m with
  | nil => intro _; simp [upsert]
  | cons kv rest ih =>
      obtain ⟨k', v'⟩ := kv
      intro hp
      rw [List.pairwise_cons] at hp
      obtain ⟨hhead, hrest⟩ := hp
      cases hk : pyEq k' k with
      | true =>
          rw [upsert, hk, if_pos rfl]
          exact List.Pairwise.cons hhead hrest
      | false =>
          rw [upsert, hk]
          simp only [Bool.false_eq_true, if_false]
          refine List.Pairwise.cons ?_ (ih hrest)
          intro y hy
          rcases upsert_key_mem k v rest y hy with h | h
          · obtain ⟨kv0, hkv0, hfst⟩ := List.mem_map.mp h
            rw [show y.1 = kv0.1 from hfst.symm]
            exact hhead kv0 hkv0
          · rw [h]; exact hk

theorem values_upsert {α : Type} {P : JVal × α → Prop} (k : JVal) (v : α)
    (hnew : P (k, v))
    (hrepl : ∀ k' w, P (k', w) → pyEq k' k = true → P (k', v)) :
    ∀ m : List (JVal × α), (∀ kv ∈ m, P kv) → ∀ kv ∈ upsert k v m, P kv := by
  intro m
  induction m with
  | nil =>
      intro _ kv hkv
      simp only [upsert, List.mem_singleton] at hkv
      subst hkv
      exact hnew
  | cons kv0 rest ih =>
      obtain ⟨k', v'⟩ := kv0
      intro hall kv hkv
      cases hk : pyEq k' k with
      | true =>
          rw [upsert, hk, if_pos rfl] at hkv
          rcases List.mem_cons.mp hkv with hkv | hkv
          · subst hkv
            exact hrepl k' v' (hall _ (by simp)) hk
          · exact hall _ (by simp [hkv])
      | false =>
          rw [upsert, hk] at hkv
          simp only [Bool.false_eq_true, if_false] at hkv
          rcases List.mem_cons.mp hkv with hkv | hkv
          · subst hkv; exact hall _ (by simp)
          · exact ih (fun kv' h' => hall _ (by simp [h'])) kv hkv

theorem dictModify_fst {α : Type} (k : JVal) (f : α → α) :
    ∀ m : List (JVal × α),
    (dictModify k f m).map Prod.fst = m.map Prod.fst := by
  intro m
  induction m with
  | nil => rfl
  | cons kv rest ih =>
      obtain ⟨k', v'⟩ := kv
      cases hk : pyEq k' k <;> simp [dictModify, hk, ih]

theorem anyKey_eq_keys {α : Type} (m : List (JVal × α)) (j : JVal) :
    anyKey m j = (m.map Prod.fst).any fun k => pyEq k j := by
  induction m with
  | nil => rfl
  | cons kv rest ih =>
      simp only [anyKey, List.map_cons, List.any_cons] at ih ⊢
      rw [ih]

theorem anyKey_dictModify {α : Type} (k : JVal) (f : α → α) (j : JVal)
    (m : List (JVal × α)) :
    anyKey (dictModify k f m) j = anyKey m j := by
  rw [anyKey_eq_keys, anyKey_eq_keys, dictModify_fst]

theorem pairwise_dictModify {α : Type} (k : JVal) (f : α → α) :
    ∀ m : List (JVal × α),
    List.Pairwise (fun x y : JVal × α => pyEq x.1 y.1 = false) m →
    List.Pairwise (fun x y : JVal × α => pyEq x.1 y.1 = false)
      (dictModify k f m) := by
  intro m
  induction m with
  | nil => intro _; exact List.Pairwise.nil
  | cons kv rest ih =>
      obtain ⟨k', v'⟩ := kv
      intro hp
      rw [List.pairwise_cons] at hp
      obtain ⟨hhead, hrest⟩ := hp
      have hkeys : ∀ y ∈ dictModify k f rest, pyEq k' y.1 = false := by
        intro y hy
        have : y.1 ∈ rest.map Prod.fst := by
          rw [← dictModify_fst k f rest]
          exact List.mem_map_of_mem Prod.fst hy
        obtain ⟨kv0, hkv0, hfst⟩ := List.mem_map.mp this
        rw [← hfst]
        exact hhead kv0 hkv0
      cases hk : pyEq k' k with
      | true =>
          rw [dictModify, hk, if_pos rfl]
          exact List.Pairwise.cons hhead hrest
      | false =>
          rw [dictModify, hk]
          simp only [Bool.false_eq_true, if_false]
          exact List.Pairwise.cons hkeys (ih hrest)

theorem dictModify_mem {α : Type} {k : JVal} {f : α → α} :
    ∀ {m : List (JVal × α)} {kv}, kv ∈ dictModify k f m →
    kv ∈ m ∨ ∃ kv' ∈ m, kv = (kv'.1, f kv'.2) := by
  intro m
  induction m with
  | nil => intro kv hkv; simp [dictModify] at hkv
  | cons kv0 rest ih =>
      obtain ⟨k', v'⟩ := kv0
      intro kv hkv
      cases hk : pyEq k' k with
      | true =>
          rw [dictModify, hk, if_pos rfl] at hkv
          rcases List.mem_cons.mp hkv with hkv | hkv
          · exact Or.inr ⟨(k', v'), by simp, hkv⟩
          · exact Or.inl (by simp [hkv])
      | false =>
          rw [dictModify, hk] at hkv
          simp only [Bool.false_eq_true, if_false] at hkv
          rcases List.mem_cons.mp hkv with hkv | hkv
          · exact Or.inl (by simp [hkv])
          · rcases ih hkv with h | ⟨kv', hkv', he⟩
            · exact Or.inl (by simp [h])
            · exact Or.inr ⟨kv', by simp [hkv'], he⟩

theorem tmInv_dictModify_running (k : JVal) :
    ∀ m, TmInv m →
    TmInv (dictModify k (fun t => { t with status := .str "running" }) m) := by
  intro m ⟨hp, hv⟩
  refine ⟨pairwise_dictModify k _ m hp, ?_⟩
  intro kv hkv
  rcases dictModify_mem hkv with h | ⟨kv', hkv', he⟩
  · exact hv kv h
  · obtain ⟨h1, h2, -⟩ := hv kv' hkv'
    subst he
    exact ⟨h1, h2, rfl⟩

theorem descriptorId_ok_obj {tm : JVal} {aid : JVal}
    (h : descriptorId tm = .ok aid) : ∃ kvs, tm = .obj kvs := by
  cases tm <;>
    first
      | exact ⟨_, rfl⟩
      | simp [descriptorId, JVal.pyGet] at h

theorem upsertTeammate_fold :
    ∀ (tms : List JVal) (m m' : List (JVal × TeammateInfo)),
    List.foldlM upsertTeammate m tms = .ok m' →
    ∀ ids0 : List JVal,
    ∃ delta, List.foldlM idStep ids0 tms = .ok (ids0 ++ delta) ∧
      (∀ j, anyKey m' j = (anyKey m j || delta.any fun i => pyEq i j)) ∧
      (TmInv m → TmInv m') := by
  intro tms
  induction tms with
  | nil =>
      intro m m' h ids0
      simp only [List.foldlM_nil, pure_eq_ok] at h
      subst h
      exact ⟨[], by simp [pure_eq_ok], fun j => by simp, id⟩
  | cons tm tms ih =>
      intro m m' h ids0
      rw [List.foldlM_cons, bind_eq_ok] at h
      obtain ⟨m1, hm1, hrest⟩ := h
      unfold upsertTeammate at hm1
      rw [bind_eq_ok] at hm1
      obtain ⟨aid, haid, hm1⟩ := hm1
      obtain ⟨kvs, htm⟩ := descriptorId_ok_obj haid
      subst htm
      simp only [JVal.pyGet, ok_bind] at hm1
      cases htr : truthy aid with
      | false =>
          rw [htr] at hm1
          simp only [Bool.false_eq_true, if_false, pure_eq_ok] at hm1
          subst hm1
          obtain ⟨delta, hfold, hany, hinv⟩ := ih _ m' hrest ids0
          refine ⟨delta, ?_, hany, hinv⟩
          rw [List.foldlM_cons]
          rw [show idStep ids0 (JVal.obj kvs) = .ok ids0 from by
            simp [idStep, haid, htr, pure_eq_ok], ok_bind]
          exact hfold
      | true =>
          rw [htr] at hm1
          simp only [if_true] at hm1
          cases hh : hashable aid with
          | false =>
              simp only [pyDictSet, hh, Bool.false_eq_true, if_false] at hm1
              cases hm1
          | true =>
              simp only [pyDictSet, hh, if_true] at hm1
              injection hm1 with hm1
              obtain ⟨delta, hfold, hany, hinv⟩ :=
                ih m1 m' hrest (ids0 ++ [aid])
              refine ⟨aid :: delta, ?_, ?_, ?_⟩
              · rw [List.foldlM_cons]
                rw [show idStep ids0 (JVal.obj kvs) = .ok (ids0 ++ [aid])
                  from by simp [idStep, haid, htr, pure_eq_ok], ok_bind]
                rw [hfold, List.append_assoc]
                rfl
              · intro j
                rw [hany j, ← hm1, anyKey_upsert, List.any_cons,
                  Bool.or_assoc, Bool.or_comm (pyEq aid j)]
              · intro hTm
                refine hinv ?_
                rw [← hm1]
                obtain ⟨hp, hv⟩ := hTm
                refine ⟨pairwise_upsert _ _ m hp, ?_⟩
                refine values_upsert aid _ ⟨hh, pyEq_refl_hashable hh, rfl⟩
                  ?_ m hv
                intro k' w hPk' hke
                exact ⟨hPk'.1, hke, rfl⟩

theorem processBlock_teammates (acc acc' : ExtAcc) (block : JVal)
    (h : processBlock acc block = .ok acc') :
    ∃ ids, blockTeammateIds block = .ok ids ∧
      (∀ j, anyKey acc'.seen_teammates j =
        (anyKey acc.seen_teammates j || ids.any fun i => pyEq i j)) ∧
      (TmInv acc.seen_teammates → TmInv acc'.seen_teammates) := by
  cases block with
  | str s =>
      simp only [processBlock, pure_eq_ok] at h
      subst h
      exact ⟨[], rfl, fun j => by simp, id⟩
  | num n =>
      simp only [processBlock, pure_eq_ok] at h
      subst h
      exact ⟨[], rfl, fun j => by simp, id⟩
  | bool b =>
      simp only [processBlock, pure_eq_ok] at h
      subst h
      exact ⟨[], rfl, fun j => by simp, id⟩
  | null =>
      simp only [processBlock, pure_eq_ok] at h
      subst h
      exact ⟨[], rfl, fun j => by simp, id⟩
  | arr l =>
      simp only [processBlock, pure_eq_ok] at h
      subst h
      exact ⟨[], rfl, fun j => by simp, id⟩
  | obj kvs =>
      simp only [processBlock] at h
      cases hty : pyEq (msgGetD kvs "type" .null) (.str "tool_use") with
      | false =>
          rw [hty] at h
          simp only [Bool.not_false, if_true, pure_eq_ok] at h
          subst h
          exact ⟨[], by simp [blockTeammateIds, hty, pure_eq_ok],
            fun j => by simp, id⟩
      | true =>
          rw [hty] at h
          simp only [Bool.not_true, Bool.false_eq_true, if_false] at h
          cases hn1 : pyEq (msgGetD kvs "name" (.str "")) (.str "TeamCreate")
            with
          | true =>
              rw [hn1] at h
              simp only [if_true] at h
              rw [bind_eq_ok] at h
              obtain ⟨newName, hnn, h⟩ := h
              rw [bind_eq_ok] at h
              obtain ⟨tmsV, htv, h⟩ := h
              rw [bind_eq_ok] at h
              obtain ⟨tms, htms, h⟩ := h
              rw [bind_eq_ok] at h
              obtain ⟨m, hm, h⟩ := h
              rw [pure_eq_ok] at h
              subst h
              obtain ⟨delta, hfold, hany, hinv⟩ :=
                upsertTeammate_fold tms _ m hm []
              refine ⟨delta, ?_, ?_, ?_⟩
              · simp [blockTeammateIds, hty, hn1, htv, htms, hfold]
              · intro j
                simpa using hany j
              · intro hTm
                simpa using hinv hTm
          | false =>
              rw [hn1] at h
              simp only [Bool.false_eq_true, if_false] at h
              refine ⟨[], by simp [blockTeammateIds, hty, hn1, pure_eq_ok], ?_⟩
              suffices hs :
                  (∀ j, anyKey acc'.seen_teammates j =
                    anyKey acc.seen_teammates j) ∧
                  (TmInv acc.seen_teammates → TmInv acc'.seen_teammates) by
                exact ⟨fun j => by simp [hs.1 j], hs.2⟩
              cases hn2 : pyEq (msgGetD kvs "name" (.str "")) (.str "TaskCreate")
                with
              | true =>
                  rw [hn2] at h
                  simp only [if_true] at h
                  rw [bind_eq_ok] at h
                  obtain ⟨idD, -, h⟩ := h
                  rw [bind_eq_ok] at h
                  obtain ⟨taskId, -, h⟩ := h
                  rw [bind_eq_ok] at h
                  obtain ⟨titleD, -, h⟩ := h
                  rw [bind_eq_ok] at h
                  obtain ⟨subject, -, h⟩ := h
                  rw [bind_eq_ok] at h
                  obtain ⟨owner, -, h⟩ := h
                  rw [bind_eq_ok] at h
                  obtain ⟨descr, -, h⟩ := h
                  rw [bind_eq_ok] at h
                  obtain ⟨m, -, h⟩ := h
                  rw [pure_eq_ok] at h
                  subst h
                  exact ⟨fun j => rfl, id⟩
              | false =>
                  rw [hn2] at h
                  simp only [Bool.false_eq_true, if_false] at h
                  cases hn3 : pyEq (msgGetD kvs "name" (.str ""))
                    (.str "TaskUpdate") with
                  | true =>
                      rw [hn3] at h
                      simp only [if_true] at h
                      rw [bind_eq_ok] at h
                      obtain ⟨idD, -, h⟩ := h
                      rw [bind_eq_ok] at h
                      obtain ⟨taskId, -, h⟩ := h
                      rw [bind_eq_ok] at h
                      obtain ⟨mem, -, h⟩ := h
                      cases mem with
                      | true =>
                          simp only [if_true] at h
                          rw [bind_eq_ok] at h
                          obtain ⟨stV, -, h⟩ := h
                          rw [bind_eq_ok] at h
                          obtain ⟨owV, -, h⟩ := h
                          split_ifs at h <;>
                            · rw [pure_eq_ok] at h
                              subst h
                              exact ⟨fun j => rfl, id⟩
                      | false =>
                          simp only [Bool.false_eq_true, if_false] at h
                          rw [bind_eq_ok] at h
                          obtain ⟨subjD, -, h⟩ := h
                          rw [bind_eq_ok] at h
                          obtain ⟨stD, -, h⟩ := h
                          rw [bind_eq_ok] at h
                          obtain ⟨owD, -, h⟩ := h
                          rw [bind_eq_ok] at h
                          obtain ⟨m, -, h⟩ := h
                          rw [pure_eq_ok] at h
                          subst h
                          exact ⟨fun j => rfl, id⟩
                  | false =>
                      rw [hn3] at h
                      simp only [Bool.false_eq_true, if_false] at h
                      cases hn4 : (pyEq (msgGetD kvs "name" (.str ""))
                          (.str "SendMessage") ||
                        pyEq (msgGetD kvs "name" (.str ""))
                          (.str "TeamMessage")) with
                      | false =>
                          rw [hn4] at h
                          simp only [Bool.false_eq_true, if_false,
                            pure_eq_ok] at h
                          subst h
                          exact ⟨fun j => rfl, id⟩
                      | true =>
                          rw [hn4] at h
                          simp only [if_true] at h
                          rw [bind_eq_ok] at h
                          obtain ⟨agD, -, h⟩ := h
                          rw [bind_eq_ok] at h
                          obtain ⟨target, -, h⟩ := h
                          cases htr : truthy target with
                          | false =>
                              rw [htr] at h
                              simp only [Bool.false_eq_true, if_false,
                                pure_eq_ok] at h
                              subst h
                              exact ⟨fun j => rfl, id⟩
                          | true =>
                              rw [htr] at h
                              simp only [if_true] at h
                              rw [bind_eq_ok] at h
                              obtain ⟨mem, -, h⟩ := h
                              cases mem with
                              | false =>
                                  simp only [Bool.false_eq_true, if_false,
                                    pure_eq_ok] at h
                                  subst h
                                  exact ⟨fun j => rfl, id⟩
                              | true =>
                                  simp only [if_true, pure_eq_ok] at h
                                  subst h
                                  refine ⟨fun j => ?_, fun hTm => ?_⟩
                                  · exact anyKey_dictModify target _ j
                                      acc.seen_teammates
                                  · exact tmInv_dictModify_running target
                                      acc.seen_teammates hTm

theorem processBlock_fold :
    ∀ (blocks : List JVal) (acc acc' : ExtAcc),
    List.foldlM processBlock acc blocks = .ok acc' →
    ∀ ids0 : List JVal, ∃ delta,
      List.foldlM blkIdStep ids0 blocks = .ok (ids0 ++ delta) ∧
      (∀ j, anyKey acc'.seen_teammates j =
        (anyKey acc.seen_teammates j || delta.any fun i => pyEq i j)) ∧
      (TmInv acc.seen_teammates → TmInv acc'.seen_teammates) := by
  intro blocks
  induction blocks with
  | nil =>
      intro acc acc' h ids0
      simp only [List.foldlM_nil, pure_eq_ok] at h
      subst h
      exact ⟨[], by simp [pure_eq_ok], fun j => by simp, id⟩
  | cons b blocks ih =>
      intro acc acc' h ids0
      rw [List.foldlM_cons, bind_eq_ok] at h
      obtain ⟨acc1, hb, hrest⟩ := h
      obtain ⟨idsb, hidsb, hanyb, hinvb⟩ :=
        processBlock_teammates acc acc1 b hb
      obtain ⟨delta, hfold, hany, hinv⟩ := ih acc1 acc' hrest (ids0 ++ idsb)
      refine ⟨idsb ++ delta, ?_, ?_, fun hTm => hinv (hinvb hTm)⟩
      · rw [List.foldlM_cons]
        rw [show blkIdStep ids0 b = .ok (ids0 ++ idsb) from by
          simp [blkIdStep, hidsb, pure_eq_ok], ok_bind]
        rw [hfold, List.append_assoc]
      · intro j
        rw [hany j, hanyb j, List.any_append, Bool.or_assoc]

theorem processEntry_teammates (acc acc' : ExtAcc) (e : Entry)
    (hteam : is_team_message e.2.1 = .ok true)
    (h : processEntry acc e = .ok acc') :
    ∃ ids, entryTeammateIds e.2.1 = .ok ids ∧
      (∀ j, anyKey acc'.seen_teammates j =
        (anyKey acc.seen_teammates j || ids.any fun i => pyEq i j)) ∧
      (TmInv acc.seen_teammates → TmInv acc'.seen_teammates) := by
  obtain ⟨idx, msg, sz⟩ := e
  simp only [processEntry] at h
  rw [hteam, ok_bind] at h
  simp only [Bool.not_true, Bool.false_eq_true, if_false] at h
  rw [bind_eq_ok] at h
  obtain ⟨content, hc, h⟩ := h
  cases content with
  | arr blocks =>
      obtain ⟨delta, hfold, hany, hinv⟩ := processBlock_fold blocks _ acc' h []
      refine ⟨delta, ?_, fun j => hany j, hinv⟩
      simp only [entryTeammateIds]
      rw [hc, ok_bind]
      simpa using hfold
  | str s =>
      rw [pure_eq_ok] at h
      subst h
      exact ⟨[], by simp [entryTeammateIds, hc, pure_eq_ok],
        fun j => by simp, id⟩
  | num n =>
      rw [pure_eq_ok] at h
      subst h
      exact ⟨[], by simp [entryTeammateIds, hc, pure_eq_ok],
        fun j => by simp, id⟩
  | bool b =>
      rw [pure_eq_ok] at h
      subst h
      exact ⟨[], by simp [entryTeammateIds, hc, pure_eq_ok],
        fun j => by simp, id⟩
  | null =>
      rw [pure_eq_ok] at h
      subst h
      exact ⟨[], by simp [entryTeammateIds, hc, pure_eq_ok],
        fun j => by simp, id⟩
  | obj kvs2 =>
      rw [pure_eq_ok] at h
      subst h
      exact ⟨[], by simp [entryTeammateIds, hc, pure_eq_ok],
        fun j => by simp, id⟩

theorem processEntry_fold_replicate (e : Entry) (ids : List JVal)
    (hteam : is_team_message e.2.1 = .ok true)
    (hids : entryTeammateIds e.2.1 = .ok ids) :
    ∀ (k : Nat), 1 ≤ k → ∀ (acc acc' : ExtAcc),
    List.foldlM processEntry acc (List.replicate k e) = .ok acc' →
    (∀ j, anyKey acc'.seen_teammates j =
      (anyKey acc.seen_teammates j || ids.any fun i => pyEq i j)) ∧
    (TmInv acc.seen_teammates → TmInv acc'.seen_teammates) := by
  intro k
  induction k with
  | zero => intro hk; omega
  | succ k ih =>
      intro _ acc acc' h
      rw [List.replicate_succ, List.foldlM_cons, bind_eq_ok] at h
      obtain ⟨acc1, h1, hrest⟩ := h
      obtain ⟨ids1, hids1, hany1, hinv1⟩ :=
        processEntry_teammates acc acc1 e hteam h1
      have hsame : ids1 = ids := by
        rw [hids] at hids1
        injection hids1 with hsame
        exact hsame.symm
      subst hsame
      cases k with
      | zero =>
          simp only [List.replicate_zero, List.foldlM_nil, pure_eq_ok] at hrest
          subst hrest
          exact ⟨hany1, hinv1⟩
      | succ k' =>
          obtain ⟨hany, hinv⟩ := ih (by omega) acc1 acc' hrest
          refine ⟨fun j => ?_, fun hTm => hinv (hinv1 hTm)⟩
          rw [hany j, hany1 j, Bool.or_assoc, Bool.or_self]

theorem any_pyEq_of_inv {j : JVal} :
    ∀ m : List (JVal × TeammateInfo),
    (∀ kv ∈ m, pyEq kv.1 kv.2.agent_id = true) →
    (m.any fun kv => pyEq kv.2.agent_id j) = anyKey m j := by
  intro m
  induction m with
  | nil => intro _; rfl
  | cons kv rest ih =>
      intro hv
      have hkv : pyEq kv.1 kv.2.agent_id = true := (hv kv (by simp))
      simp only [List.any_cons, anyKey] at *
      rw [ih (fun kv' h' => hv kv' (by simp [h']))]
      have : pyEq kv.2.agent_id j = pyEq kv.1 j := by
        cases hc : pyEq kv.1 j with
        | true =>
            exact JVal.pyEq_trans (by rw [JVal.pyEq_symm]; exact hkv) hc
        | false =>
            cases hc2 : pyEq kv.2.agent_id j with
            | true =>
                exact absurd (JVal.pyEq_trans hkv hc2) (by simp [hc])
            | false => rfl
      rw [this]

/-- **C8**: extracting from a doubled sequence `s ++ s`, where `s` repeats
one coordination-classified team-creation entry `n ≥ 1` times, yields
exactly one Teammate per distinct (`pyEq`) `agent_id` occurring truthily in
the entry's teammate descriptors — the teammate `agent_id`s are pairwise
distinct and their `pyEq`-closure coincides with that of the descriptor
ids — and every teammate's status is the last observed update,
`"running"`. -/
theorem extract_doubled_teamcreate_unique_teammates
    (e : Entry) (n : Nat) (st : TeamState) (ids : List JVal)
    (hn : 1 ≤ n)
    (hteam : is_team_message e.2.1 = .ok true)
    (hids : entryTeammateIds e.2.1 = .ok ids)
    (hex : extract_team_state (List.replicate n e ++ List.replicate n e) =
      .ok st) :
    List.Pairwise
      (fun x y : TeammateInfo => pyEq x.agent_id y.agent_id = false)
      st.teammates ∧
    (∀ tm ∈ st.teammates, tm.status = .str "running") ∧
    (∀ j : JVal, (st.teammates.any fun tm => pyEq tm.agent_id j) =
      (ids.any fun i => pyEq i j)) := by
  unfold extract_team_state at hex
  rw [bind_eq_ok] at hex
  obtain ⟨acc, hacc, hex⟩ := hex
  rw [bind_eq_ok] at hex
  obtain ⟨teamMsgs, -, hex⟩ := hex
  have hst : st.teammates = acc.seen_teammates.map Prod.snd := by
    cases hmm : teamMsgs.isEmpty with
    | true =>
        rw [hmm] at hex
        simp only [if_true] at hex
        rw [bind_eq_ok] at hex
        obtain ⟨y, -, hex⟩ := hex
        rw [pure_eq_ok] at hex
        rw [← hex]
    | false =>
        rw [hmm] at hex
        simp only [Bool.false_eq_true, if_false] at hex
        rw [bind_eq_ok] at hex
        obtain ⟨y, -, hex⟩ := hex
        rw [pure_eq_ok] at hex
        rw [← hex]
  rw [← List.replicate_add] at hacc
  obtain ⟨hany, hinv⟩ := processEntry_fold_replicate e ids hteam hids
    (n + n) (by omega) {} acc hacc
  obtain ⟨hp, hv⟩ : TmInv acc.seen_teammates :=
    hinv ⟨List.Pairwise.nil, by simp⟩
  refine ⟨?_, ?_, ?_⟩
  · rw [hst, List.pairwise_map]
    refine hp.imp_of_mem ?_
    intro x y hx hy hxy
    cases hcontra : pyEq x.2.agent_id y.2.agent_id with
    | false => rfl
    | true =>
        exfalso
        have h1 : pyEq x.1 x.2.agent_id = true := (hv x hx).2.1
        have h2 : pyEq y.1 y.2.agent_id = true := (hv y hy).2.1
        have : pyEq x.1 y.1 = true :=
          JVal.pyEq_trans (JVal.pyEq_trans h1 hcontra)
            (by rw [JVal.pyEq_symm]; exact h2)
        rw [hxy] at this
        cases this
  · intro tm htm
    rw [hst] at htm
    obtain ⟨kv, hkv, he⟩ := List.mem_map.mp htm
    rw [← he]
    exact (hv kv hkv).2.2
  · intro j
    have hmap : (st.teammates.any fun tm => pyEq tm.agent_id j) =
        (acc.seen_teammates.any fun kv => pyEq kv.2.agent_id j) := by
      rw [hst]
      induction acc.seen_teammates with
      | nil => rfl
      | cons kv rest ih => simp [List.any_cons, ih]
    rw [hmap, any_pyEq_of_inv acc.seen_teammates
      (fun kv hkv => (hv kv hkv).2.1), hany j]
    simp [anyKey]

/-- The C8 witness entry: a `TeamCreate` invocation with two teammate
descriptors. -/
def w8entry : Entry :=
  (0, [("message", .obj [("content", .arr [.obj
    [("type", .str "tool_use"), ("name", .str "TeamCreate"),
     ("input", .obj [("name", .str "squad"),
       ("teammates", .arr
         [.obj [("agentId", .str "a1"), ("name", .str "Alice")],
          .obj [("agentId", .str "a2"), ("name", .str "Bob")]])])]])])], 10)

/-- The state extracted from the doubled C8 witness sequence. -/
def w8state : TeamState :=
  { team_name := .str "squad",
    teammates := [⟨.str "a1", .str "Alice", .str "", .str "running"⟩,
                  ⟨.str "a2", .str "Bob", .str "", .str "running"⟩],
    message_count := 2, last_coordination_index := 0 }

/-- Witness for C8 at a concrete input: doubling a single two-teammate
`TeamCreate` entry yields pairwise-distinct teammate ids. -/
theorem extract_doubled_teamcreate_unique_teammates_witness :
    List.Pairwise
      (fun x y : TeammateInfo => pyEq x.agent_id y.agent_id = false)
      w8state.teammates :=
  (extract_doubled_teamcreate_unique_teammates w8entry 1 w8state
    [.str "a1", .str "a2"] (by omega) rfl rfl rfl).1
